import Mathlib

set_option maxRecDepth 100000

/-!
# SigilZero deterministic run engine — verification development

Shallow embedding of the deterministic governance engine of the
`sigilzero-ai` repository (Python sources under `app/`), together with
theorems settling the specification's claims about it.

The embedding mirrors, definition by definition:
* `app/sigilzero/core/hashing.py` — canonical JSON, SHA-256 content
  hashing, `compute_inputs_hash`, `derive_run_id`;
* `app/sigilzero/core/fs.py` — `write_json` (the indent-2 file serializer);
* `app/sigilzero/pipelines/phase0_instagram_copy.py` — snapshot writing,
  collision/idempotency resolution, manifest construction, atomic
  finalization, caption-count enforcement;
* `app/sigilzero/pipelines/phase0_brand_optimization.py` — chain-input
  hashing (`prior_artifact` snapshot) and its snapshot-hash computation;
* `app/sigilzero/core/migrations.py` — migration registry and engine;
* `app/sigilzero/core/doctrine.py` — doctrine loader validation and
  candidate-root resolution.

Machine integers are `Nat` with explicit `% 2^32` where overflow matters;
bytes are `Nat` (< 256); SHA-256 is implemented concretely so that hashes
evaluate on concrete inputs.
-/

namespace SigilZero

/-! ## JSON values

Python `json` values, as produced by `json.loads` / consumed by
`json.dumps`.  Numbers carry their exact Python literal rendering (e.g.
`"0.3"`, `"5"`); the repository never re-computes numbers, it only
serializes them, so the literal is the faithful representation.
The array and object spines are mutual inductives (rather than nested
`List`s) so that all recursive functions below are structurally
recursive and reduce inside the kernel. -/

mutual
inductive JVal where
  | jnull : JVal
  | jbool (b : Bool) : JVal
  | jnum (lit : String) : JVal
  | jstr (s : String) : JVal
  | jarr (xs : JArr) : JVal
  | jobj (fs : JObj) : JVal
  deriving DecidableEq

inductive JArr where
  | nil : JArr
  | cons (hd : JVal) (tl : JArr) : JArr
  deriving DecidableEq

inductive JObj where
  | nil : JObj
  | cons (key : String) (val : JVal) (tl : JObj) : JObj
  deriving DecidableEq
end

open JVal JArr JObj

/-- Association-list lookup on a JSON object: Python `dict.get(k)`. -/
def JObj.get : JObj → String → Option JVal
  | .nil, _ => none
  | .cons k v tl, key => if k = key then some v else tl.get key

/-- Python `d[k] = v`: replace in place if the key exists (dict insertion
order is preserved), otherwise append. -/
def JObj.set : JObj → String → JVal → JObj
  | .nil, key, v => .cons key v .nil
  | .cons k w tl, key, v =>
      if k = key then .cons k v tl else .cons k w (tl.set key v)

/-- Python `d.pop(k, None)`: remove the key if present. -/
def JObj.remove : JObj → String → JObj
  | .nil, _ => .nil
  | .cons k v tl, key => if k = key then tl else .cons k v (tl.remove key)

/-- The list of keys, in insertion order. -/
def JObj.keys : JObj → List String
  | .nil => []
  | .cons k _ tl => k :: tl.keys

/-- Membership of a key. -/
def JObj.hasKey (o : JObj) (key : String) : Bool :=
  (o.get key).isSome

/-- Lexicographic comparison of codepoint lists — Python's `str` order
on the underlying codepoints. -/
def charsLe : List Char → List Char → Bool
  | [], _ => true
  | _ :: _, [] => false
  | x :: xs, y :: ys =>
      if x.toNat < y.toNat then true
      else if x.toNat = y.toNat then charsLe xs ys
      else false

/-- `a <= b` on strings, Python's comparison (by codepoints). -/
def strLe (a b : String) : Bool := charsLe a.toList b.toList

/-- Insert one field into an object already sorted by key
(insertion-sort step; Python's `sort_keys=True` sorts by `str` order). -/
def JObj.insertSorted (key : String) (v : JVal) : JObj → JObj
  | .nil => .cons key v .nil
  | .cons k w tl =>
      if strLe key k then .cons key v (.cons k w tl)
      else .cons k w (tl.insertSorted key v)

/-- Sort an object's fields by key (insertion sort — stable, like
Python's `sorted`). -/
def JObj.sortKeys : JObj → JObj
  | .nil => .nil
  | .cons k v tl => (tl.sortKeys).insertSorted k v

/-! ## The Python `json.dumps` serializer

One serializer, parameterized the way the repository calls it:

* `canonical_json` (hashing.py): `sort_keys=True, separators=(",", ":")`;
* plain `json.dumps(obj, sort_keys=True)`: default separators `", "`/`": "`;
* `write_json` (fs.py): `sort_keys=True, indent=2` plus an enforced
  trailing newline;
* `json.dump(..., indent=2)` without `sort_keys` (manifest writes in the
  brand pipelines).

`ensure_ascii=False` is the mode used for every hashed byte string in the
repository; the escape table below is that mode's. -/

structure DumpCfg where
  /-- separator between items (Python `item_separator`). -/
  itemSep : String
  /-- separator between a key and its value (Python `key_separator`). -/
  kvSep : String
  /-- `indent=n` when `some n`; `None` otherwise. -/
  indent : Option Nat
  /-- `sort_keys`. -/
  sortKeys : Bool

/-- `separators=(",", ":")`, `sort_keys=True` — `canonical_json`. -/
def cfgCanonical : DumpCfg := ⟨",", ":", none, true⟩

/-- Default separators, `sort_keys=True` — bare `json.dumps(x, sort_keys=True)`. -/
def cfgPlainSorted : DumpCfg := ⟨", ", ": ", none, true⟩

/-- `indent=2, sort_keys=True` — the body of `write_json`. -/
def cfgIndent2Sorted : DumpCfg := ⟨",", ": ", some 2, true⟩

/-- `indent=2` without `sort_keys` — the brand pipelines' manifest dump. -/
def cfgIndent2 : DumpCfg := ⟨",", ": ", some 2, false⟩

/-- Escape one character inside a JSON string literal
(`ensure_ascii=False`: only `"` `\` and control characters escape). -/
def escChar (c : Char) : String :=
  if c = '"' then "\x5c\x22"
  else if c = '\x5c' then "\x5c\x5c"
  else if c = '\n' then "\x5cn"
  else if c = '\t' then "\x5ct"
  else if c = '\r' then "\x5cr"
  else if c = '\x08' then "\x5cb"
  else if c = '\x0c' then "\x5cf"
  else if c.toNat < 32 then
    let hx := "0123456789abcdef".toList
    String.mk ['\x5c', 'u', '0', '0', hx.getD (c.toNat / 16) '0', hx.getD (c.toNat % 16) '0']
  else String.mk [c]

/-- JSON string literal: `"…"` with characters escaped. -/
def encStr (s : String) : String :=
  "\x22" ++ String.join (s.toList.map escChar) ++ "\x22"

/-- `n` spaces. -/
def spaces : Nat → String
  | 0 => ""
  | n + 1 => " " ++ spaces n

/-- Newline plus indentation for nesting depth `d` under `indent=w`;
empty when `indent=None` (Python puts no newlines then). -/
def nlIndent (cfg : DumpCfg) (d : Nat) : String :=
  match cfg.indent with
  | none => ""
  | some w => "\n" ++ spaces (w * d)

mutual
/-- Recursively sort every object's fields by key.  Python's
`sort_keys=True` sorts each object as it is serialized; pre-sorting the
whole value and then serializing without sorting emits the same bytes,
since sorting only permutes fields. -/
def sortKeysRecV : JVal → JVal
  | .jnull => .jnull
  | .jbool b => .jbool b
  | .jnum lit => .jnum lit
  | .jstr s => .jstr s
  | .jarr xs => .jarr (sortKeysRecA xs)
  | .jobj fs => .jobj (sortKeysRecO fs).sortKeys
  termination_by structural v => v

/-- `sortKeysRecV` on each array element. -/
def sortKeysRecA : JArr → JArr
  | .nil => .nil
  | .cons x xs => .cons (sortKeysRecV x) (sortKeysRecA xs)
  termination_by structural xs => xs

/-- `sortKeysRecV` on each field value (top-level field order untouched;
`sortKeysRecV` sorts it afterwards). -/
def sortKeysRecO : JObj → JObj
  | .nil => .nil
  | .cons k v tl => .cons k (sortKeysRecV v) (sortKeysRecO tl)
  termination_by structural fs => fs
end

mutual
/-- `json.dumps` on a value, at nesting depth `d` (no sorting here;
`dumps` pre-sorts when the configuration asks for it). -/
def dumpVal (cfg : DumpCfg) (d : Nat) : JVal → String
  | .jnull => "null"
  | .jbool true => "true"
  | .jbool false => "false"
  | .jnum lit => lit
  | .jstr s => encStr s
  | .jarr .nil => "[]"
  | .jarr (.cons x xs) =>
      "[" ++ nlIndent cfg (d + 1) ++ dumpVal cfg (d + 1) x
          ++ dumpArrTail cfg (d + 1) xs ++ nlIndent cfg d ++ "]"
  | .jobj .nil => "\x7b\x7d"
  | .jobj (.cons k v tl) =>
      "\x7b" ++ nlIndent cfg (d + 1) ++ encStr k ++ cfg.kvSep ++ dumpVal cfg (d + 1) v
          ++ dumpObjTail cfg (d + 1) tl ++ nlIndent cfg d ++ "\x7d"
  termination_by structural v => v

/-- Remaining array items, each preceded by the item separator. -/
def dumpArrTail (cfg : DumpCfg) (d : Nat) : JArr → String
  | .nil => ""
  | .cons x xs =>
      cfg.itemSep ++ nlIndent cfg d ++ dumpVal cfg d x ++ dumpArrTail cfg d xs
  termination_by structural xs => xs

/-- Remaining object fields, each preceded by the item separator. -/
def dumpObjTail (cfg : DumpCfg) (d : Nat) : JObj → String
  | .nil => ""
  | .cons k v tl =>
      cfg.itemSep ++ nlIndent cfg d ++ encStr k ++ cfg.kvSep ++ dumpVal cfg d v
          ++ dumpObjTail cfg d tl
  termination_by structural fs => fs
end

/-- `json.dumps(obj, …)` with the given configuration. -/
def dumps (cfg : DumpCfg) (v : JVal) : String :=
  dumpVal cfg 0 (if cfg.sortKeys then sortKeysRecV v else v)

/-- `canonical_json` (hashing.py line 8): sorted keys, no whitespace. -/
def canonicalJson (v : JVal) : String := dumps cfgCanonical v

/-- The byte string `write_json` (fs.py line 23) puts on disk:
`json.dumps(data, sort_keys=True, ensure_ascii=False, indent=2)` with a
trailing newline enforced. -/
def writeJsonString (v : JVal) : String :=
  let s := dumps cfgIndent2Sorted v
  if s.toList.getLast? = some '\n' then s else s ++ "\n"

/-! ## UTF-8 and SHA-256

`sha256_bytes` / `sha256_text` from hashing.py, computed concretely.
Words are `Nat` reduced modulo `2^32`. -/

/-- UTF-8 encoding of one scalar value. -/
def utf8Char (c : Char) : List Nat :=
  let n := c.toNat
  if n < 0x80 then [n]
  else if n < 0x800 then
    [0xC0 ||| (n >>> 6), 0x80 ||| (n &&& 0x3F)]
  else if n < 0x10000 then
    [0xE0 ||| (n >>> 12), 0x80 ||| ((n >>> 6) &&& 0x3F), 0x80 ||| (n &&& 0x3F)]
  else
    [0xF0 ||| (n >>> 18), 0x80 ||| ((n >>> 12) &&& 0x3F),
     0x80 ||| ((n >>> 6) &&& 0x3F), 0x80 ||| (n &&& 0x3F)]

/-- UTF-8 bytes of a string (`str.encode("utf-8")`). -/
def utf8 (s : String) : List Nat :=
  (s.toList.map utf8Char).flatten

/-- 32-bit truncation. -/
def m32 (x : Nat) : Nat := x % 4294967296

/-- 32-bit right rotation. -/
def rotr (n x : Nat) : Nat := m32 ((x >>> n) ||| (x <<< (32 - n)))

/-- 32-bit complement. -/
def not32 (x : Nat) : Nat := x ^^^ 4294967295

/-- SHA-256 round constants. -/
def shaK : List Nat :=
  [1116352408, 1899447441, 3049323471, 3921009573, 961987163,
   1508970993, 2453635748, 2870763221, 3624381080, 310598401,
   607225278, 1426881987, 1925078388, 2162078206, 2614888103,
   3248222580, 3835390401, 4022224774, 264347078, 604807628,
   770255983, 1249150122, 1555081692, 1996064986, 2554220882,
   2821834349, 2952996808, 3210313671, 3336571891, 3584528711,
   113926993, 338241895, 666307205, 773529912, 1294757372,
   1396182291, 1695183700, 1986661051, 2177026350, 2456956037,
   2730485921, 2820302411, 3259730800, 3345764771, 3516065817,
   3600352804, 4094571909, 275423344, 430227734, 506948616,
   659060556, 883997877, 958139571, 1322822218, 1537002063,
   1747873779, 1955562222, 2024104815, 2227730452, 2361852424,
   2428436474, 2756734187, 3204031479, 3329325298]

/-- Message padding: append `0x80`, zero bytes to 56 mod 64, then the
bit length as 8 big-endian bytes. -/
def shaPad (msg : List Nat) : List Nat :=
  let len := msg.length
  let zeros := (64 - ((len + 9) % 64)) % 64
  let bitLen := len * 8
  msg ++ [0x80] ++ List.replicate zeros 0 ++
    [(bitLen >>> 56) &&& 255, (bitLen >>> 48) &&& 255, (bitLen >>> 40) &&& 255,
     (bitLen >>> 32) &&& 255, (bitLen >>> 24) &&& 255, (bitLen >>> 16) &&& 255,
     (bitLen >>> 8) &&& 255, bitLen &&& 255]

/-- Big-endian 32-bit words from bytes. -/
def bytesToWords : List Nat → List Nat
  | b0 :: b1 :: b2 :: b3 :: rest =>
      (b0 <<< 24 ||| b1 <<< 16 ||| b2 <<< 8 ||| b3) :: bytesToWords rest
  | _ => []

/-- Extend the 16 block words to 64 schedule words.  `recent` holds the
words produced so far, newest first; `k` counts the words still to add. -/
def shaExtend : Nat → List Nat → List Nat
  | 0, recent => recent.reverse
  | k + 1, recent =>
      let w2 := recent.getD 1 0
      let w7 := recent.getD 6 0
      let w15 := recent.getD 14 0
      let w16 := recent.getD 15 0
      let s0 := (rotr 7 w15) ^^^ (rotr 18 w15) ^^^ (w15 >>> 3)
      let s1 := (rotr 17 w2) ^^^ (rotr 19 w2) ^^^ (w2 >>> 10)
      shaExtend k (m32 (w16 + s0 + w7 + s1) :: recent)

/-- The eight working variables of the compression function. -/
structure ShaState where
  a : Nat
  b : Nat
  c : Nat
  d : Nat
  e : Nat
  f : Nat
  g : Nat
  h : Nat

/-- One compression round. -/
def shaRound (st : ShaState) (kw : Nat × Nat) : ShaState :=
  let e := st.e
  let s1 := (rotr 6 e) ^^^ (rotr 11 e) ^^^ (rotr 25 e)
  let ch := (e &&& st.f) ^^^ ((not32 e) &&& st.g)
  let t1 := m32 (st.h + s1 + ch + kw.1 + kw.2)
  let a := st.a
  let s0 := (rotr 2 a) ^^^ (rotr 13 a) ^^^ (rotr 22 a)
  let maj := (a &&& st.b) ^^^ (a &&& st.c) ^^^ (st.b &&& st.c)
  let t2 := m32 (s0 + maj)
  ⟨m32 (t1 + t2), a, st.b, st.c, m32 (st.d + t1), e, st.f, st.g⟩

/-- Process one 64-byte block. -/
def shaBlock (hs : ShaState) (block : List Nat) : ShaState :=
  let w0 := bytesToWords block
  let w := shaExtend 48 w0.reverse
  let st := (shaK.zip w).foldl shaRound hs
  ⟨m32 (hs.a + st.a), m32 (hs.b + st.b), m32 (hs.c + st.c), m32 (hs.d + st.d),
   m32 (hs.e + st.e), m32 (hs.f + st.f), m32 (hs.g + st.g), m32 (hs.h + st.h)⟩

/-- Split input into 64-byte blocks and fold `shaBlock` over them.
`rblock` accumulates the current block in reverse, `cnt` its length; the
padded message length is a multiple of 64, so the accumulator is empty
when the input runs out.  (Structural recursion on the byte list, so the
kernel can evaluate digests.) -/
def shaGo (hs : ShaState) (rblock : List Nat) (cnt : Nat) : List Nat → ShaState
  | [] => hs
  | b :: rest =>
      if cnt = 63 then shaGo (shaBlock hs (b :: rblock).reverse) [] 0 rest
      else shaGo hs (b :: rblock) (cnt + 1) rest

/-- Fold all 64-byte blocks of an already padded message. -/
def shaBlocks (hs : ShaState) (bytes : List Nat) : ShaState :=
  shaGo hs [] 0 bytes

/-- Lowercase hex digit. -/
def hexChar (n : Nat) : Char := "0123456789abcdef".toList.getD n '0'

/-- A 32-bit word as 8 lowercase hex characters. -/
def wordHex (w : Nat) : String :=
  String.mk [hexChar ((w >>> 28) &&& 15), hexChar ((w >>> 24) &&& 15),
             hexChar ((w >>> 20) &&& 15), hexChar ((w >>> 16) &&& 15),
             hexChar ((w >>> 12) &&& 15), hexChar ((w >>> 8) &&& 15),
             hexChar ((w >>> 4) &&& 15), hexChar (w &&& 15)]

/-- SHA-256 digest of a byte list, lowercase hex (`hashlib.sha256(...).hexdigest()`). -/
def sha256Hex (msg : List Nat) : String :=
  let init : ShaState :=
    ⟨1779033703, 3144134277, 1013904242, 2773480762,
     1359893119, 2600822924, 528734635, 1541459225⟩
  let hs := shaBlocks init (shaPad msg)
  wordHex hs.a ++ wordHex hs.b ++ wordHex hs.c ++ wordHex hs.d ++
  wordHex hs.e ++ wordHex hs.f ++ wordHex hs.g ++ wordHex hs.h

/-- `sha256_bytes` (hashing.py line 13): digest with a `sha256:` prefix. -/
def sha256_bytes (data : List Nat) : String := "sha256:" ++ sha256Hex data

/-- `sha256_text` (hashing.py line 19): hash the UTF-8 bytes of a string. -/
def sha256_text (text : String) : String := sha256_bytes (utf8 text)

end SigilZero


namespace SigilZero

open JVal JArr JObj

/-! ## hashing.py: object hashing, inputs hash, run id -/

/-- `sha256_json` (hashing.py line 23): hash the canonical JSON of a value. -/
def sha256_json (v : JVal) : String := sha256_text (canonicalJson v)

/-- `hash_dict` (hashing.py line 38). -/
def hash_dict (o : JObj) : String := sha256_text (canonicalJson (.jobj o))

/-- The JSON object `{name: hash}` of a snapshot-hash mapping, in the
mapping's insertion order. -/
def hashesToJObj : List (String × String) → JObj
  | [] => .nil
  | (k, v) :: rest => .cons k (.jstr v) (hashesToJObj rest)

/-- `compute_inputs_hash` (hashing.py line 42): hash of the canonical JSON
of the snapshot-hash mapping.  The source pre-sorts the items, then
`canonical_json` (with `sort_keys=True`) sorts the keys again, so the
serialized bytes are those of the key-sorted mapping either way. -/
def compute_inputs_hash (snapshotHashes : List (String × String)) : String :=
  sha256_text (canonicalJson (.jobj (hashesToJObj snapshotHashes)))

/-- `derive_run_id` (hashing.py line 61): strip the `sha256:` prefix if
present, take the first 32 hex characters, append `-<suffix>` when the
suffix is nonempty. -/
def derive_run_id (inputsHash : String) (suffix : String) : String :=
  let hexHash :=
    if inputsHash.toList.take 7 = "sha256:".toList
    then String.mk (inputsHash.toList.drop 7) else inputsHash
  let runId := String.mk (hexHash.toList.take 32)
  if suffix = "" then runId else runId ++ "-" ++ suffix

/-! Sanity anchors: the embedded SHA-256 matches the standard test
vectors, so digests computed below are the ones `hashlib` produces. -/

/-- FIPS 180-4 test vector: empty message. -/
theorem sha256Hex_empty_vector :
    sha256Hex [] = "e3b0c44298fc1c149afbf4c8996fb92427ae41e4649b934ca495991b7852b855" := by
  decide

/-- FIPS 180-4 test vector: `"abc"`. -/
theorem sha256Hex_abc_vector :
    sha256Hex (utf8 "abc") = "ba7816bf8f01cfea414140de5dae2223b00361a396177a9cb410ff61f20015ad" := by
  decide

/-- A 64-character hex digest used as a concrete snapshot hash below. -/
def hexA64 : String := "aaaaaaaaaaaaaaaaaaaaaaaaaaaaaaaaaaaaaaaaaaaaaaaaaaaaaaaaaaaaaaaa"

end SigilZero

namespace SigilZero

open JVal JArr JObj

/-! ## Properties of the serializers (claim C6)

The key-sortedness predicate, order lemmas for the Python string
comparison, and the shape of the trailing byte of every serialization. -/

/-- Adjacent keys are in `strLe` order. -/
def keysSortedB : JObj → Bool
  | .nil => true
  | .cons _ _ .nil => true
  | .cons k _ (.cons k' v' tl) => strLe k k' && keysSortedB (.cons k' v' tl)

mutual
/-- Every object inside the value has its keys sorted. -/
def sortedRecVB : JVal → Bool
  | .jnull => true
  | .jbool _ => true
  | .jnum _ => true
  | .jstr _ => true
  | .jarr xs => sortedRecAB xs
  | .jobj fs => keysSortedB fs && sortedRecOB fs
  termination_by structural v => v

/-- `sortedRecVB` on every array element. -/
def sortedRecAB : JArr → Bool
  | .nil => true
  | .cons x xs => sortedRecVB x && sortedRecAB xs
  termination_by structural xs => xs

/-- `sortedRecVB` on every field value. -/
def sortedRecOB : JObj → Bool
  | .nil => true
  | .cons _ v tl => sortedRecVB v && sortedRecOB tl
  termination_by structural fs => fs
end

/-- The codepoint order is total. -/
theorem charsLe_total : ∀ xs ys : List Char, charsLe xs ys = true ∨ charsLe ys xs = true := by
  intro xs
  induction xs with
  | nil => intro ys; left; cases ys <;> rfl
  | cons x xs ih =>
      intro ys
      cases ys with
      | nil => right; rfl
      | cons y ys =>
          by_cases hlt : x.toNat < y.toNat
          · left; simp [charsLe, hlt]
          · by_cases heq : x.toNat = y.toNat
            · rcases ih ys with h | h
              · left; simp [charsLe, hlt, heq, h]
              · right
                have hlt' : ¬ y.toNat < x.toNat := by omega
                simp [charsLe, hlt', heq.symm, h]
            · right
              have : y.toNat < x.toNat := by omega
              simp [charsLe, this]

/-- Python string comparison is total. -/
theorem strLe_total (a b : String) : strLe a b = true ∨ strLe b a = true :=
  charsLe_total _ _

/-- Inserting into a key-sorted object keeps it key-sorted. -/
theorem keysSortedB_insertSorted (key : String) (v : JVal) :
    ∀ o : JObj, keysSortedB o = true → keysSortedB (o.insertSorted key v) = true
  | .nil => fun _ => rfl
  | .cons k w tl => by
      intro hs
      by_cases hkk : strLe key k = true
      · simp only [JObj.insertSorted, hkk, if_true]
        simp [keysSortedB, hkk, hs]
      · simp only [JObj.insertSorted, hkk, if_false]
        have hk : strLe k key = true := (strLe_total key k).resolve_left hkk
        cases tl with
        | nil => simp [JObj.insertSorted, keysSortedB, hk]
        | cons k' w' tl' =>
            have hparts : strLe k k' = true ∧ keysSortedB (JObj.cons k' w' tl') = true := by
              have := hs
              simp only [keysSortedB, Bool.and_eq_true] at this
              exact this
            by_cases hkey : strLe key k' = true
            · simp [JObj.insertSorted, hkey, keysSortedB, hk, hparts.1, hparts.2]
            · have hins := keysSortedB_insertSorted key v (.cons k' w' tl') hparts.2
              simp only [JObj.insertSorted, hkey, if_false] at hins ⊢
              cases htl' : tl'.insertSorted key v with
              | nil => simp [keysSortedB, hparts.1]
              | cons a b c =>
                  rw [htl'] at hins
                  simp [keysSortedB] at hins ⊢
                  exact ⟨hparts.1, hins.1, hins.2⟩
  termination_by structural o => o

/-- `sortKeys` produces a key-sorted object. -/
theorem keysSortedB_sortKeys : ∀ o : JObj, keysSortedB o.sortKeys = true
  | .nil => rfl
  | .cons k v tl => by
      simpa [JObj.sortKeys] using keysSortedB_insertSorted k v _ (keysSortedB_sortKeys tl)
  termination_by structural o => o

/-- Insertion only adds the inserted value to the multiset of values. -/
theorem sortedRecOB_insertSorted (key : String) (v : JVal) :
    ∀ o : JObj, sortedRecOB (o.insertSorted key v) = (sortedRecVB v && sortedRecOB o)
  | .nil => by simp [JObj.insertSorted, sortedRecOB]
  | .cons k w tl => by
      by_cases h : strLe key k = true
      · simp [JObj.insertSorted, h, sortedRecOB]
      · simp only [JObj.insertSorted, h, if_false, sortedRecOB,
          sortedRecOB_insertSorted key v tl]
        cases sortedRecVB v <;> cases sortedRecVB w <;> simp
  termination_by structural o => o

/-- `sortKeys` preserves value-level sortedness. -/
theorem sortedRecOB_sortKeys : ∀ o : JObj, sortedRecOB o.sortKeys = sortedRecOB o
  | .nil => rfl
  | .cons k v tl => by
      simp [JObj.sortKeys, sortedRecOB_insertSorted, sortedRecOB_sortKeys tl, sortedRecOB]
  termination_by structural o => o

mutual
/-- The recursive key sort leaves every object key-sorted. -/
theorem sortKeysRecV_sortedRec : ∀ v : JVal, sortedRecVB (sortKeysRecV v) = true
  | .jnull => rfl
  | .jbool _ => rfl
  | .jnum _ => rfl
  | .jstr _ => rfl
  | .jarr xs => by
      simp [sortKeysRecV, sortedRecVB, sortKeysRecA_sortedRec xs]
  | .jobj fs => by
      simp [sortKeysRecV, sortedRecVB, keysSortedB_sortKeys, sortedRecOB_sortKeys,
        sortKeysRecO_sortedRec fs]
  termination_by structural v => v

/-- Arrays: elementwise. -/
theorem sortKeysRecA_sortedRec : ∀ xs : JArr, sortedRecAB (sortKeysRecA xs) = true
  | .nil => rfl
  | .cons x xs => by
      simp [sortKeysRecA, sortedRecAB, sortKeysRecV_sortedRec x, sortKeysRecA_sortedRec xs]
  termination_by structural xs => xs

/-- Objects: valuewise. -/
theorem sortKeysRecO_sortedRec : ∀ fs : JObj, sortedRecOB (sortKeysRecO fs) = true
  | .nil => rfl
  | .cons k v tl => by
      simp [sortKeysRecO, sortedRecOB, sortKeysRecV_sortedRec v, sortKeysRecO_sortedRec tl]
  termination_by structural fs => fs
end

/-- Appending a string that ends in `c` makes the whole string end in `c`. -/
theorem append_getLast_char (a b : String) (c : Char) (hb : b.data.getLast? = some c) :
    (a ++ b).data.getLast? = some c := by
  rw [String.data_append, List.getLast?_append, hb]
  rfl

/-- The only values whose serialization could end in a newline are bare
number literals; this rules those out. -/
def topLitOk : JVal → Prop
  | .jnum lit => lit.data.getLast? ≠ some '\n'
  | _ => True

/-- A serialized value never ends in a newline (given `topLitOk`):
strings end in `"`, arrays in `]`, objects in `}`, literals in letters. -/
theorem dumpVal_last_ne_nl (cfg : DumpCfg) (d : Nat) :
    ∀ v : JVal, topLitOk v → (dumpVal cfg d v).data.getLast? ≠ some '\n' := by
  intro v h
  cases v with
  | jnull => simp [dumpVal]
  | jbool b => cases b <;> simp [dumpVal]
  | jnum lit => simpa [dumpVal] using h
  | jstr s =>
      simp only [dumpVal, encStr]
      rw [append_getLast_char _ _ '\x22' (by decide)]
      try decide
  | jarr xs =>
      cases xs with
      | nil => simp [dumpVal]
      | cons x tl =>
          simp only [dumpVal]
          rw [append_getLast_char _ _ ']' (by decide)]
          try decide
  | jobj fs =>
      cases fs with
      | nil => simp [dumpVal]
      | cons k v tl =>
          simp only [dumpVal]
          rw [append_getLast_char _ _ '\x7d' (by decide)]
          try decide

/-- `topLitOk` survives the recursive key sort (it only looks at the
top constructor, which the sort preserves). -/
theorem topLitOk_sortKeysRec : ∀ v : JVal, topLitOk v → topLitOk (sortKeysRecV v) := by
  intro v h
  cases v with
  | jnum lit => simpa [sortKeysRecV, topLitOk] using h
  | jnull => simp [sortKeysRecV, topLitOk]
  | jbool b => simp [sortKeysRecV, topLitOk]
  | jstr s => simp [sortKeysRecV, topLitOk]
  | jarr xs => simp [sortKeysRecV, topLitOk]
  | jobj fs => simp [sortKeysRecV, topLitOk]

/-- `dumps` output never ends in a newline. -/
theorem dumps_last_ne_nl (cfg : DumpCfg) (v : JVal) (h : topLitOk v) :
    (dumps cfg v).data.getLast? ≠ some '\n' := by
  unfold dumps
  by_cases hs : cfg.sortKeys = true
  · simpa [hs] using dumpVal_last_ne_nl cfg 0 _ (topLitOk_sortKeysRec v h)
  · simpa [hs] using dumpVal_last_ne_nl cfg 0 _ h

/-- Claim C6, counterexample: `inputs_hash` is a recorded content hash,
but it is not the SHA-256 of the byte string the indent-2,
trailing-newline serializer (`write_json`) produces for the hashed
mapping — the hashing path uses the compact `canonical_json` form. -/
theorem claim_C6_counterexample :
    compute_inputs_hash [("brief", "sha256:" ++ hexA64)] ≠
      sha256_text (writeJsonString (.jobj (.cons "brief" (.jstr ("sha256:" ++ hexA64)) .nil))) := by
  decide

/-- Claim C6 (amended): the file serializer `write_json` emits the
indent-2, recursively key-sorted serialization with exactly one appended
trailing newline (the serialization itself never ends in a newline);
recorded object hashes (`compute_inputs_hash`) are SHA-256 over the
compact `canonical_json` byte string — which has no trailing newline —
prefixed `sha256:`. -/
theorem claim_C6_serializers (v : JVal) (m : List (String × String)) (h : topLitOk v) :
    writeJsonString v = dumps cfgIndent2Sorted v ++ "\n" ∧
    (dumps cfgIndent2Sorted v).data.getLast? ≠ some '\n' ∧
    dumps cfgIndent2Sorted v = dumpVal cfgIndent2Sorted 0 (sortKeysRecV v) ∧
    sortedRecVB (sortKeysRecV v) = true ∧
    compute_inputs_hash m =
      "sha256:" ++ sha256Hex (utf8 (canonicalJson (.jobj (hashesToJObj m)))) ∧
    (canonicalJson (.jobj (hashesToJObj m))).data.getLast? ≠ some '\n' := by
  have hlast := dumps_last_ne_nl cfgIndent2Sorted v h
  refine ⟨?_, hlast, rfl, sortKeysRecV_sortedRec v, rfl, ?_⟩
  · simp only [writeJsonString, String.toList]
    rw [if_neg hlast]
  · exact dumps_last_ne_nl cfgCanonical _ (by simp [topLitOk])

/-- Witness for C6 at a concrete two-field object. -/
theorem claim_C6_serializers_witness :
    writeJsonString (.jobj (.cons "b" (.jnum "1") (.cons "a" (.jstr "x") .nil))) =
      dumps cfgIndent2Sorted (.jobj (.cons "b" (.jnum "1") (.cons "a" (.jstr "x") .nil))) ++ "\n" ∧
    sortedRecVB (sortKeysRecV (.jobj (.cons "b" (.jnum "1") (.cons "a" (.jstr "x") .nil)))) = true :=
  let t := claim_C6_serializers (.jobj (.cons "b" (.jnum "1") (.cons "a" (.jstr "x") .nil)))
    [("a", "b")] (by simp [topLitOk])
  ⟨t.1, t.2.2.2.1⟩

end SigilZero

namespace SigilZero

open JVal JArr JObj

/-! ## Collision / idempotency resolver
(`phase0_instagram_copy.py` lines 232–354)

A run directory is modelled by its name plus what
`_read_manifest_inputs_hash` returns for it: `some h` when its
`manifest.json` parses and holds `inputs_hash = h`, `none` when the
manifest is missing or unreadable.  The canonical (`artifacts/<job_id>/`)
and legacy (`artifacts/runs/`) listings are separate. -/

/-- Which location a candidate directory lives in. -/
inductive Loc where
  | canonical : Loc
  | legacy : Loc
  deriving DecidableEq

/-- The directories relevant to resolution: name → manifest `inputs_hash`
(`none` inside when the manifest is missing/invalid). -/
structure RunFs where
  /-- `artifacts/<job_id>/<name>` directories. -/
  canonical : List (String × Option String)
  /-- `artifacts/runs/<name>` directories. -/
  legacy : List (String × Option String)

/-- Directory lookup: `none` = no directory of that name. -/
def dirLookup : List (String × Option String) → String → Option (Option String)
  | [], _ => none
  | (k, ih) :: tl, name => if k = name then some ih else dirLookup tl name

/-- `_candidate_dirs` (line 244): canonical first, then legacy, keeping
only the directories that exist. -/
def candidates (fs : RunFs) (rid : String) : List (Loc × Option String) :=
  (match dirLookup fs.canonical rid with
   | some ih => [(Loc.canonical, ih)]
   | none => []) ++
  (match dirLookup fs.legacy rid with
   | some ih => [(Loc.legacy, ih)]
   | none => [])

/-- The `for candidate in candidates` scan (lines 304, 334): first
candidate whose manifest `inputs_hash` equals the current one. -/
def findReplay : List (Loc × Option String) → String → Option Loc
  | [], _ => none
  | (loc, ih) :: tl, h => if ih = some h then some loc else findReplay tl h

/-- Outcome of collision resolution. -/
inductive Resolution where
  | replay (runId : String) (loc : Loc) : Resolution
  | reserve (runId : String) : Resolution
  | collisionLimit : Resolution
  deriving DecidableEq

/-- The suffix scan (lines 323–354): try `base-suffix`, `base-(suffix+1)`,
…; `fuel` counts the suffixes left before `suffix > 1000` raises. -/
def resolveFrom (fs : RunFs) (h base : String) : Nat → Nat → Resolution
  | _, 0 => .collisionLimit
  | suffix, fuel + 1 =>
      let rid := base ++ "-" ++ toString suffix
      let cands := candidates fs rid
      if cands.isEmpty then .reserve rid
      else
        match findReplay cands h with
        | some loc => .replay rid loc
        | none => resolveFrom fs h base (suffix + 1) fuel

/-- Lines 296–354: check the base run id across canonical + legacy, then
scan deterministic suffixes `2, 3, …, 1000`. -/
def resolveRunId (fs : RunFs) (h base : String) : Resolution :=
  let cands := candidates fs base
  if cands.isEmpty then .reserve base
  else
    match findReplay cands h with
    | some loc => .replay base loc
    | none => resolveFrom fs h base 2 999

/-- Every suffix-scan outcome is the limit error or carries a suffixed
run id with the suffix in scan range. -/
theorem resolveFrom_shape (fs : RunFs) (h base : String) :
    ∀ fuel suffix,
      resolveFrom fs h base suffix fuel = .collisionLimit ∨
      ∃ n, suffix ≤ n ∧ n < suffix + fuel ∧
        (resolveFrom fs h base suffix fuel = .reserve (base ++ "-" ++ toString n) ∨
         ∃ loc, resolveFrom fs h base suffix fuel = .replay (base ++ "-" ++ toString n) loc) := by
  intro fuel
  induction fuel with
  | zero => intro suffix; left; rfl
  | succ fuel ih =>
      intro suffix
      simp only [resolveFrom]
      by_cases hc : (candidates fs (base ++ "-" ++ toString suffix)).isEmpty = true
      · right
        exact ⟨suffix, le_refl _, by omega, by simp [hc]⟩
      · simp only [hc, if_false]
        cases hf : findReplay (candidates fs (base ++ "-" ++ toString suffix)) h with
        | some loc =>
            right
            exact ⟨suffix, le_refl _, by omega, Or.inr ⟨loc, rfl⟩⟩
        | none =>
            rcases ih (suffix + 1) with hl | ⟨n, hn1, hn2, hres⟩
            · left; exact hl
            · right; exact ⟨n, by omega, by omega, hres⟩

/-- A replay outcome of the suffix scan names a directory whose manifest
hash matches. -/
theorem resolveFrom_replay (fs : RunFs) (h base : String) :
    ∀ fuel suffix rid loc,
      resolveFrom fs h base suffix fuel = .replay rid loc →
      findReplay (candidates fs rid) h = some loc := by
  intro fuel
  induction fuel with
  | zero => intro suffix rid loc hres; cases hres
  | succ fuel ih =>
      intro suffix rid loc hres
      simp only [resolveFrom] at hres
      by_cases hc : (candidates fs (base ++ "-" ++ toString suffix)).isEmpty = true
      · simp [hc] at hres
      · simp only [hc, if_false] at hres
        cases hf : findReplay (candidates fs (base ++ "-" ++ toString suffix)) h with
        | some l => rw [hf] at hres; cases hres; exact hf
        | none => rw [hf] at hres; exact ih _ _ _ hres

/-- A reserve outcome of the suffix scan names a directory that does not
exist in either location. -/
theorem resolveFrom_reserve (fs : RunFs) (h base : String) :
    ∀ fuel suffix rid,
      resolveFrom fs h base suffix fuel = .reserve rid →
      candidates fs rid = [] := by
  intro fuel
  induction fuel with
  | zero => intro suffix rid hres; cases hres
  | succ fuel ih =>
      intro suffix rid hres
      simp only [resolveFrom] at hres
      by_cases hc : (candidates fs (base ++ "-" ++ toString suffix)).isEmpty = true
      · simp only [hc, if_true] at hres
        cases hres
        exact List.isEmpty_iff.mp hc
      · simp only [hc, if_false] at hres
        cases hf : findReplay (candidates fs (base ++ "-" ++ toString suffix)) h with
        | some l => rw [hf] at hres; cases hres
        | none => rw [hf] at hres; exact ih _ _ hres

/-- The limit error means every suffix in scan range was taken by a
directory with a different (or unreadable) manifest hash. -/
theorem resolveFrom_limit (fs : RunFs) (h base : String) :
    ∀ fuel suffix,
      resolveFrom fs h base suffix fuel = .collisionLimit →
      ∀ n, suffix ≤ n → n < suffix + fuel →
        candidates fs (base ++ "-" ++ toString n) ≠ [] ∧
        findReplay (candidates fs (base ++ "-" ++ toString n)) h = none := by
  intro fuel
  induction fuel with
  | zero => intro suffix _ n h1 h2; omega
  | succ fuel ih =>
      intro suffix hres n h1 h2
      simp only [resolveFrom] at hres
      by_cases hc : (candidates fs (base ++ "-" ++ toString suffix)).isEmpty = true
      · simp [hc] at hres
      · simp only [hc, if_false] at hres
        cases hf : findReplay (candidates fs (base ++ "-" ++ toString suffix)) h with
        | some l => rw [hf] at hres; cases hres
        | none =>
            rw [hf] at hres
            by_cases hn : n = suffix
            · subst hn
              exact ⟨fun he => by simp [he] at hc, hf⟩
            · exact ih _ hres n (by omega) (by omega)

end SigilZero

namespace SigilZero

open JVal JArr JObj

/-- `run_id_base`: `derive_run_id` strips the `sha256:` prefix and takes
the first 32 hex characters. -/
theorem derive_run_id_base (hex : String) :
    derive_run_id ("sha256:" ++ hex) "" = String.mk (hex.data.take 32) := by
  unfold derive_run_id
  have h7 : ("sha256:" ++ hex).toList.take 7 = "sha256:".toList := by
    simp only [String.toList, String.data_append]
    rw [show (7 : Nat) = "sha256:".data.length from rfl]
    exact List.take_left _ _
  have hd : ("sha256:" ++ hex).toList.drop 7 = hex.data := by
    simp only [String.toList, String.data_append]
    rw [show (7 : Nat) = "sha256:".data.length from rfl]
    exact List.drop_left _ _
  simp [h7, hd]

/-- Claim C2: the resolver at a glance — `run_id_base` is the first 32
hex characters of `inputs_hash`; with no directory at the base the base
is reserved; a candidate with matching manifest hash yields an
idempotent replay of that run id; every replay points at a matching
existing directory; every reservation points at a free name; the limit
error means suffixes 2..1000 are all taken by non-matching directories;
and every outcome's run id is `base` or `base-n` with `2 ≤ n ≤ 1000`. -/
theorem claim_C2_resolution (fs : RunFs) (h base hex : String) :
    derive_run_id ("sha256:" ++ hex) "" = String.mk (hex.data.take 32) ∧
    (candidates fs base = [] → resolveRunId fs h base = .reserve base) ∧
    (∀ loc, findReplay (candidates fs base) h = some loc →
       resolveRunId fs h base = .replay base loc) ∧
    (∀ rid loc, resolveRunId fs h base = .replay rid loc →
       findReplay (candidates fs rid) h = some loc) ∧
    (∀ rid, resolveRunId fs h base = .reserve rid → candidates fs rid = []) ∧
    (resolveRunId fs h base = .collisionLimit →
       ∀ n, 2 ≤ n → n ≤ 1000 →
         candidates fs (base ++ "-" ++ toString n) ≠ [] ∧
         findReplay (candidates fs (base ++ "-" ++ toString n)) h = none) ∧
    (resolveRunId fs h base = .collisionLimit ∨
     ∃ rid, (rid = base ∨ ∃ n, 2 ≤ n ∧ n ≤ 1000 ∧ rid = base ++ "-" ++ toString n) ∧
       (resolveRunId fs h base = .reserve rid ∨
        ∃ loc, resolveRunId fs h base = .replay rid loc)) := by
  refine ⟨derive_run_id_base hex, ?_, ?_, ?_, ?_, ?_, ?_⟩
  · intro hc
    simp [resolveRunId, hc]
  · intro loc hfr
    have hne : (candidates fs base).isEmpty = false := by
      cases hcand : candidates fs base with
      | nil => rw [hcand] at hfr; cases hfr
      | cons a l => rfl
    simp [resolveRunId, hne, hfr]
  · intro rid loc hres
    unfold resolveRunId at hres
    by_cases hc : (candidates fs base).isEmpty = true
    · rw [if_pos hc] at hres; cases hres
    · rw [if_neg hc] at hres
      cases hfr : findReplay (candidates fs base) h with
      | some l => rw [hfr] at hres; cases hres; exact hfr
      | none => rw [hfr] at hres; exact resolveFrom_replay fs h base 999 2 rid loc hres
  · intro rid hres
    unfold resolveRunId at hres
    by_cases hc : (candidates fs base).isEmpty = true
    · rw [if_pos hc] at hres
      cases hres
      exact List.isEmpty_iff.mp hc
    · rw [if_neg hc] at hres
      cases hfr : findReplay (candidates fs base) h with
      | some l => rw [hfr] at hres; cases hres
      | none => rw [hfr] at hres; exact resolveFrom_reserve fs h base 999 2 rid hres
  · intro hres n h2 h1000
    unfold resolveRunId at hres
    by_cases hc : (candidates fs base).isEmpty = true
    · rw [if_pos hc] at hres; cases hres
    · rw [if_neg hc] at hres
      cases hfr : findReplay (candidates fs base) h with
      | some l => rw [hfr] at hres; cases hres
      | none =>
          rw [hfr] at hres
          exact resolveFrom_limit fs h base 999 2 hres n h2 (by omega)
  · unfold resolveRunId
    by_cases hc : (candidates fs base).isEmpty = true
    · rw [if_pos hc]
      exact Or.inr ⟨base, Or.inl rfl, Or.inl rfl⟩
    · rw [if_neg hc]
      cases hfr : findReplay (candidates fs base) h with
      | some l => exact Or.inr ⟨base, Or.inl rfl, Or.inr ⟨l, rfl⟩⟩
      | none =>
          rcases resolveFrom_shape fs h base 999 2 with hl | ⟨n, hn1, hn2, hres⟩
          · exact Or.inl hl
          · refine Or.inr ⟨base ++ "-" ++ toString n, Or.inr ⟨n, hn1, by omega, rfl⟩, ?_⟩
            rcases hres with hr | ⟨loc, hr⟩
            · exact Or.inl hr
            · exact Or.inr ⟨loc, hr⟩

/-- Witness for C2: on an empty artifact tree the base run id is
reserved. -/
theorem claim_C2_resolution_witness :
    resolveRunId ⟨[], []⟩ "sha256:h" "base" = .reserve "base" :=
  (claim_C2_resolution ⟨[], []⟩ "sha256:h" "base" "").2.1 (by decide)

end SigilZero

namespace SigilZero

open JVal JArr JObj

/-! ## Doctrine loader (`core/doctrine.py`)

Filesystem modelled as repo-relative path → file content; the loader
joins repo-relative candidate paths, so `resolved_path` is the candidate
path itself. -/

/-- `ALLOWED_DOCTRINE_IDS` (doctrine.py line 12). -/
def ALLOWED_DOCTRINE_IDS : List String := ["prompts/instagram_copy"]

/-- Python `s.split("/")` (keeps empty segments). `acc` holds the
current segment, reversed. -/
def splitChars : List Char → List Char → List String
  | [], acc => [String.mk acc.reverse]
  | c :: rest, acc =>
      if c = '/' then String.mk acc.reverse :: splitChars rest []
      else splitChars rest (c :: acc)

/-- `s.split("/")`. -/
def splitSlash (s : String) : List String := splitChars s.data []

/-- The unsafe-component check (doctrine.py lines 52–59):
`s.startswith("/") or ".." in s.split("/")`. -/
def componentUnsafe (s : String) : Bool :=
  (s.data.head? = some '/') || decide (".." ∈ splitSlash s)

/-- `doctrine_id.split("/")[-1]`. -/
def lastSeg (s : String) : String := (splitSlash s).getLastD ""

/-- POSIX path join of two relative components. -/
def pj (a b : String) : String := a ++ "/" ++ b

/-- The fixed, ordered candidate roots (doctrine.py lines 62–70), as
repo-relative paths. -/
def doctrineCandidates (did ver fn : String) : List String :=
  [ pj (pj did ver) fn,
    pj (pj (pj "sigilzero" did) ver) fn,
    pj (pj (pj "sigilzero/prompts" (lastSeg did)) ver) fn,
    pj (pj (pj "app" did) ver) fn,
    pj (pj (pj "app/sigilzero" did) ver) fn,
    pj (pj (pj "app/sigilzero/prompts" (lastSeg did)) ver) fn ]

/-- Lookup a file by repo-relative path. -/
def fsFile : List (String × String) → String → Option String
  | [], _ => none
  | (p, c) :: tl, path => if p = path then some c else fsFile tl path

/-- First candidate path that exists, with its content. -/
def firstExisting (fs : List (String × String)) : List String → Option (String × String)
  | [] => none
  | p :: rest =>
      match fsFile fs p with
      | some c => some (p, c)
      | none => firstExisting fs rest

/-- The errors `load_doctrine` raises. -/
inductive DoctrineError where
  | unsupportedId : DoctrineError
  | unsafeId : DoctrineError
  | unsafeVersion : DoctrineError
  | unsafeFilename : DoctrineError
  | notFound : DoctrineError
  deriving DecidableEq

/-- `DoctrineReference` (schemas.py line 217) without the excluded
volatile `resolved_at`. -/
structure DoctrineRef where
  doctrine_id : String
  version : String
  sha256 : String
  resolved_path : String
  deriving DecidableEq

/-- `DoctrineLoader.load_doctrine` (doctrine.py lines 30–105). -/
def load_doctrine (fs : List (String × String)) (did ver fn : String) :
    Except DoctrineError (String × DoctrineRef) :=
  if did ∉ ALLOWED_DOCTRINE_IDS then .error .unsupportedId
  else if componentUnsafe did then .error .unsafeId
  else if componentUnsafe ver then .error .unsafeVersion
  else if componentUnsafe fn then .error .unsafeFilename
  else
    match firstExisting fs (doctrineCandidates did ver fn) with
    | none => .error .notFound
    | some (path, content) =>
        .ok (content, ⟨did, ver, sha256_text content, path⟩)

/-- Segments of `xs ++ "/" ++ ys` are the segments of `xs` plus those of
`ys`: membership splits accordingly. -/
theorem mem_splitChars_append (s : String) (ys : List Char) :
    ∀ xs acc, s ∈ splitChars (xs ++ '/' :: ys) acc ↔
      (s ∈ splitChars xs acc ∨ s ∈ splitChars ys []) := by
  intro xs
  induction xs with
  | nil =>
      intro acc
      simp [splitChars]
  | cons c xs ih =>
      intro acc
      by_cases hc : c = '/'
      · subst hc
        simp [splitChars, ih, or_assoc]
      · simp [splitChars, hc, ih]

/-- Membership of a segment distributes over the path join. -/
theorem mem_splitSlash_append (s a b : String) :
    s ∈ splitSlash (a ++ "/" ++ b) ↔ (s ∈ splitSlash a ∨ s ∈ splitSlash b) := by
  unfold splitSlash
  have hslash : "/".data = ['/'] := by decide
  have hdata : (a ++ "/" ++ b).data = a.data ++ '/' :: b.data := by
    rw [String.data_append, String.data_append, hslash]
    simp
  rw [hdata]
  exact mem_splitChars_append s b.data a.data []

/-- The head of `a ++ b` is the head of `a` when `a` is nonempty. -/
theorem head_append_left (a b : String) (h : a.data ≠ []) :
    (a ++ b).data.head? = a.data.head? := by
  rw [String.data_append]
  cases hd : a.data with
  | nil => exact absurd hd h
  | cons x xs => simp

end SigilZero

namespace SigilZero

open JVal JArr JObj

/-- A safe component neither starts with `/` nor has a `..` segment. -/
theorem componentSafe_parts (x : String) (h : componentUnsafe x = false) :
    x.data.head? ≠ some '/' ∧ ".." ∉ splitSlash x := by
  unfold componentUnsafe at h
  simp only [Bool.or_eq_false_iff, decide_eq_false_iff_not] at h
  exact h

/-- Joining a safe nonempty prefix with a safe component stays safe. -/
theorem pj_safe (a b : String) (ha1 : a.data ≠ []) (ha2 : a.data.head? ≠ some '/')
    (ha3 : ".." ∉ splitSlash a) (hb3 : ".." ∉ splitSlash b) :
    (pj a b).data ≠ [] ∧ (pj a b).data.head? ≠ some '/' ∧ ".." ∉ splitSlash (pj a b) := by
  refine ⟨?_, ?_, ?_⟩
  · unfold pj
    simp [String.data_append, ha1]
  · unfold pj
    have h1 : (a ++ "/").data ≠ [] := by simp [String.data_append, ha1]
    rw [head_append_left _ _ h1, head_append_left _ _ ha1]
    exact ha2
  · unfold pj
    rw [mem_splitSlash_append]
    rintro (h | h)
    · exact ha3 h
    · exact hb3 h

/-- Every candidate path for the allow-listed doctrine id is
repo-relative POSIX: no leading slash and no `..` segment. -/
theorem doctrineCandidates_safe (ver fn : String)
    (hver : componentUnsafe ver = false) (hfn : componentUnsafe fn = false) :
    ∀ p ∈ doctrineCandidates "prompts/instagram_copy" ver fn,
      p.data.head? ≠ some '/' ∧ ".." ∉ splitSlash p := by
  have hv := componentSafe_parts ver hver
  have hf := componentSafe_parts fn hfn
  have base : ∀ r : String, r.data ≠ [] → r.data.head? ≠ some '/' → ".." ∉ splitSlash r →
      (pj (pj r ver) fn).data.head? ≠ some '/' ∧ ".." ∉ splitSlash (pj (pj r ver) fn) := by
    intro r h1 h2 h3
    obtain ⟨n1, h1', h2'⟩ := pj_safe r ver h1 h2 h3 hv.2
    obtain ⟨_, h1'', h2''⟩ := pj_safe (pj r ver) fn n1 h1' h2' hf.2
    exact ⟨h1'', h2''⟩
  intro p hp
  simp only [doctrineCandidates, List.mem_cons, List.mem_singleton, List.not_mem_nil,
    or_false] at hp
  rcases hp with h | h | h | h | h | h <;> subst h
  · exact base "prompts/instagram_copy" (by decide) (by decide) (by decide)
  · exact base _ (by decide) (by decide) (by decide)
  · exact base _ (by decide) (by decide) (by decide)
  · exact base _ (by decide) (by decide) (by decide)
  · exact base _ (by decide) (by decide) (by decide)
  · exact base _ (by decide) (by decide) (by decide)

/-- A found path is one of the candidates, with its content on disk. -/
theorem firstExisting_mem (fs : List (String × String)) :
    ∀ l p c, firstExisting fs l = some (p, c) → p ∈ l ∧ fsFile fs p = some c := by
  intro l
  induction l with
  | nil => intro p c h; cases h
  | cons q rest ih =>
      intro p c h
      simp only [firstExisting] at h
      cases hq : fsFile fs q with
      | some cc => rw [hq] at h; cases h; exact ⟨List.mem_cons_self _ _, hq⟩
      | none =>
          rw [hq] at h
          obtain ⟨h1, h2⟩ := ih p c h
          exact ⟨List.mem_cons_of_mem _ h1, h2⟩

end SigilZero

namespace SigilZero

open JVal JArr JObj

deriving instance DecidableEq for Except

/-- Claim C9, counterexample: the loader does not reject components
containing path separators.  The (only) allow-listed doctrine id itself
contains `/` yet loads successfully, and a version string with a `/`
is not rejected as unsafe — resolution proceeds and merely fails with
not-found. -/
theorem claim_C9_counterexample :
    "prompts/instagram_copy".data.contains '/' = true ∧
    load_doctrine [(pj (pj "prompts/instagram_copy" "v1.0.0") "template.md", "T")]
        "prompts/instagram_copy" "v1.0.0" "template.md" =
      .ok ("T", ⟨"prompts/instagram_copy", "v1.0.0", sha256_text "T",
                 pj (pj "prompts/instagram_copy" "v1.0.0") "template.md"⟩) ∧
    "a/b".data.contains '/' = true ∧
    load_doctrine [] "prompts/instagram_copy" "a/b" "template.md" = .error .notFound := by
  refine ⟨by decide, by decide, by decide, by decide⟩

/-- Claim C9 (amended): the loader rejects unknown doctrine ids (closed
allow-list), rejects any of the three components that starts with `/` or
contains a `..` path segment, fails with not-found when no candidate
root resolves, and on success returns the content hash plus a
repo-relative POSIX `resolved_path` (no leading slash, no `..`
segment). -/
theorem claim_C9_doctrine (fs : List (String × String)) (did ver fn : String) :
    (did ∉ ALLOWED_DOCTRINE_IDS →
       load_doctrine fs did ver fn = .error .unsupportedId) ∧
    (did ∈ ALLOWED_DOCTRINE_IDS → componentUnsafe ver = true →
       load_doctrine fs did ver fn = .error .unsafeVersion) ∧
    (did ∈ ALLOWED_DOCTRINE_IDS → componentUnsafe ver = false →
       componentUnsafe fn = true →
       load_doctrine fs did ver fn = .error .unsafeFilename) ∧
    (did ∈ ALLOWED_DOCTRINE_IDS → componentUnsafe ver = false →
       componentUnsafe fn = false →
       firstExisting fs (doctrineCandidates did ver fn) = none →
       load_doctrine fs did ver fn = .error .notFound) ∧
    (∀ content ref, load_doctrine fs did ver fn = .ok (content, ref) →
       ref.doctrine_id = did ∧ did = "prompts/instagram_copy" ∧
       ref.sha256 = sha256_text content ∧
       ref.resolved_path ∈ doctrineCandidates did ver fn ∧
       fsFile fs ref.resolved_path = some content ∧
       ref.resolved_path.data.head? ≠ some '/' ∧
       ".." ∉ splitSlash ref.resolved_path) := by
  have hdid_unsafe : componentUnsafe "prompts/instagram_copy" = false := by decide
  refine ⟨?_, ?_, ?_, ?_, ?_⟩
  · intro h
    unfold load_doctrine
    rw [if_pos h]
  · intro h1 h2
    unfold load_doctrine
    have hdid : did = "prompts/instagram_copy" := by
      simpa [ALLOWED_DOCTRINE_IDS] using h1
    rw [if_neg (by simp [h1]), if_neg (by simp [hdid, hdid_unsafe]), if_pos h2]
  · intro h1 h2 h3
    unfold load_doctrine
    have hdid : did = "prompts/instagram_copy" := by
      simpa [ALLOWED_DOCTRINE_IDS] using h1
    rw [if_neg (by simp [h1]), if_neg (by simp [hdid, hdid_unsafe]),
      if_neg (by simp [h2]), if_pos h3]
  · intro h1 h2 h3 h4
    unfold load_doctrine
    have hdid : did = "prompts/instagram_copy" := by
      simpa [ALLOWED_DOCTRINE_IDS] using h1
    rw [if_neg (by simp [h1]), if_neg (by simp [hdid, hdid_unsafe]),
      if_neg (by simp [h2]), if_neg (by simp [h3]), h4]
  · intro content ref hok
    unfold load_doctrine at hok
    by_cases h1 : did ∈ ALLOWED_DOCTRINE_IDS
    case neg => rw [if_pos h1] at hok; cases hok
    rw [if_neg (by simp [h1])] at hok
    have hdid : did = "prompts/instagram_copy" := by
      simpa [ALLOWED_DOCTRINE_IDS] using h1
    by_cases h2 : componentUnsafe did = true
    case pos => rw [if_pos h2] at hok; cases hok
    rw [if_neg h2] at hok
    by_cases h3 : componentUnsafe ver = true
    case pos => rw [if_pos h3] at hok; cases hok
    rw [if_neg h3] at hok
    by_cases h4 : componentUnsafe fn = true
    case pos => rw [if_pos h4] at hok; cases hok
    rw [if_neg h4] at hok
    cases hfe : firstExisting fs (doctrineCandidates did ver fn) with
    | none => rw [hfe] at hok; cases hok
    | some pc =>
        obtain ⟨p, c⟩ := pc
        rw [hfe] at hok
        cases hok
        obtain ⟨hmem, hfile⟩ := firstExisting_mem fs _ p content hfe
        have hv3 : componentUnsafe ver = false := by simpa using h3
        have hv4 : componentUnsafe fn = false := by simpa using h4
        have hsafe := doctrineCandidates_safe ver fn hv3 hv4 p (hdid ▸ hmem)
        exact ⟨rfl, hdid, rfl, hmem, hfile, hsafe.1, hsafe.2⟩

/-- Witness for C9: an unknown doctrine id is rejected. -/
theorem claim_C9_doctrine_witness :
    load_doctrine [] "prompts/other" "v1" "f.md" = .error .unsupportedId :=
  (claim_C9_doctrine [] "prompts/other" "v1" "f.md").1 (by decide)

end SigilZero

namespace SigilZero

open JVal JArr JObj

/-! ## Caption parsing and count enforcement
(`phase0_instagram_copy.py` lines 452–504) -/

/-- Python whitespace (the ASCII part, which covers model output). -/
def isSpace (c : Char) : Bool :=
  c = ' ' || c = '\t' || c = '\n' || c = '\r' || c = '\x0c' || c = '\x0b'

/-- `str.rstrip()`. -/
def pyRstrip (s : String) : String :=
  String.mk (s.data.reverse.dropWhile isSpace).reverse

/-- `str.strip()`. -/
def pyStrip (s : String) : String :=
  String.mk (((s.data.dropWhile isSpace).reverse.dropWhile isSpace).reverse)

/-- `str.startswith(pre)`. -/
def pyStartsWith (s pre : String) : Bool :=
  decide (s.data.take pre.data.length = pre.data)

/-- Split on `'\n'`, keeping empty segments (helper for `splitlines`). -/
def splitLinesChars : List Char → List Char → List String
  | [], acc => [String.mk acc.reverse]
  | c :: rest, acc =>
      if c = '\n' then String.mk acc.reverse :: splitLinesChars rest []
      else splitLinesChars rest (c :: acc)

/-- `str.splitlines()` (for `\n`-separated text): no empty final line
for a trailing newline, and `""` yields `[]`. -/
def pySplitlines (s : String) : List String :=
  if s.data = [] then []
  else
    let parts := splitLinesChars s.data []
    if s.data.getLast? = some '\n' then parts.dropLast else parts

/-- `"\n".join(current)`. -/
def joinNl : List String → String
  | [] => ""
  | [s] => s
  | s :: rest => s ++ "\n" ++ joinNl rest

/-- Flush the current block: join, strip, append when nonempty
(captions carry empty hashtag lists, so a caption is its text). -/
def flushCaption (currentRev : List String) (acc : List String) : List String :=
  match currentRev with
  | [] => acc
  | _ =>
      let cap := pyStrip (joinNl currentRev.reverse)
      if cap = "" then acc else acc ++ [cap]

/-- The `for ln in lines` loop of `_parse_captions` (lines 456–463). -/
def parseGo : List String → List String → List String → List String
  | [], currentRev, acc => flushCaption currentRev acc
  | ln :: rest, currentRev, acc =>
      if pyStartsWith (pyStrip ln) "---" && !currentRev.isEmpty then
        parseGo rest [] (flushCaption currentRev acc)
      else
        parseGo rest (ln :: currentRev) acc

/-- `_parse_captions` (lines 452–468): split into rstripped lines, cut
blocks at `---` separator lines, strip each block, drop empties. -/
def parse_captions (raw : String) : List String :=
  parseGo ((pySplitlines raw).map pyRstrip) [] []

/-- Python `xs[:n]` for an `int` bound (negative bounds count from the
end). -/
def pySliceTo (xs : List String) (n : Int) : List String :=
  if 0 ≤ n then xs.take n.toNat
  else xs.take (xs.length - min xs.length (-n).toNat)

/-- Lines 502–504: truncate to `caption_count`, then pad with empty
captions while shorter. -/
def enforceCount (xs : List String) (n : Int) : List String :=
  let t := pySliceTo xs n
  t ++ List.replicate (n - (t.length : Int)).toNat ""

/-- Claim C10, counterexample: `caption_count` is unvalidated; at
`caption_count = -1` a successful run's captions list has 1 entry, not
`caption_count` entries (Python's negative slice drops from the end and
the padding loop never runs). -/
theorem claim_C10_counterexample :
    parse_captions "a\n---\nb" = ["a", "b"] ∧
    enforceCount (parse_captions "a\n---\nb") (-1) = ["a"] ∧
    ((enforceCount (parse_captions "a\n---\nb") (-1)).length : Int) ≠ (-1 : Int) := by
  refine ⟨by decide, by decide, by decide⟩

/-- Claim C10 (amended): for every nonnegative `caption_count`, the
enforced captions list is the parsed captions truncated to that count,
padded with empty captions up to it — so it has exactly
`caption_count` entries. -/
theorem claim_C10_captions (raw : String) (xs : List String) (count : Int)
    (h : 0 ≤ count) :
    enforceCount xs count =
      xs.take count.toNat ++ List.replicate (count.toNat - xs.length) "" ∧
    ((enforceCount (parse_captions raw) count).length : Int) = count := by
  have hslice : ∀ ys : List String, pySliceTo ys count = ys.take count.toNat := by
    intro ys; unfold pySliceTo; rw [if_pos h]
  constructor
  · simp only [enforceCount, hslice, List.length_take]
    congr 1
    congr 1
    omega
  · simp only [enforceCount, hslice, List.length_append, List.length_replicate,
      List.length_take]
    omega

/-- Witness for C10 at `caption_count = 5` on a three-caption output. -/
theorem claim_C10_captions_witness :
    ((enforceCount (parse_captions "a\n---\nb\n---\nc") 5).length : Int) = 5 :=
  (claim_C10_captions "a\n---\nb\n---\nc" [] 5 (by decide)).2

end SigilZero

namespace SigilZero

open JVal JArr JObj

/-! ## Migration engine (`core/migrations.py`)

Manifests are raw JSON objects; the engine here takes the record read
from disk and returns what happens to the disk: `noop` (already at
target, nothing written), `failure` (validation or path finding failed —
nothing written, so the original manifest and any existing backup are
untouched), or `migrated r backup` (the manifest file now holds `r` and
the `.backup` sibling holds the original record).  `applied_at` is the
wall-clock timestamp, passed in as a parameter. -/

/-- Append one element to a JSON array. -/
def JArr.push : JArr → JVal → JArr
  | .nil, v => .cons v .nil
  | .cons x xs, v => .cons x (xs.push v)

/-- A registered migration: version pair, pure transform, change notes. -/
structure Migration where
  fromVersion : String
  toVersion : String
  transform : JObj → JObj
  changes : List String

/-- `Migration_1_0_to_1_1.transform` (migrations.py line 143). -/
def transform_1_0_to_1_1 (m : JObj) : JObj :=
  ((m.set "input_snapshots" (.jobj .nil)).set "inputs_hash" .jnull).set
    "schema_version" (.jstr "1.1.0")

/-- The `chain_metadata` default added by the 1.1→1.2 migration. -/
def chainMetadataDefault : JVal :=
  .jobj (.cons "is_chainable_stage" (.jbool false) (.cons "prior_stages" (.jarr .nil) .nil))

/-- `Migration_1_1_to_1_2.transform` (migrations.py line 181). -/
def transform_1_1_to_1_2 (m : JObj) : JObj :=
  (m.set "chain_metadata" chainMetadataDefault).set "schema_version" (.jstr "1.2.0")

/-- `Migration_1_0_to_1_2.transform` (migrations.py line 218). -/
def transform_1_0_to_1_2 (m : JObj) : JObj :=
  (((m.set "input_snapshots" (.jobj .nil)).set "inputs_hash" .jnull).set
    "chain_metadata" chainMetadataDefault).set "schema_version" (.jstr "1.2.0")

/-- `_register_builtin_migrations` (migrations.py line 251), in
registration order. -/
def registryList : List Migration :=
  [ ⟨"1.0.0", "1.1.0", transform_1_0_to_1_1,
      ["Add input_snapshots field (empty dict)", "Add inputs_hash field (null)",
       "Bump schema_version to 1.1.0"]⟩,
    ⟨"1.1.0", "1.2.0", transform_1_1_to_1_2,
      ["Add chain_metadata.is_chainable_stage (false)", "Add chain_metadata.prior_stages ([])",
       "Bump schema_version to 1.2.0"]⟩,
    ⟨"1.0.0", "1.2.0", transform_1_0_to_1_2,
      ["Add input_snapshots field (empty dict)", "Add inputs_hash field (null)",
       "Add chain_metadata.is_chainable_stage (false)", "Add chain_metadata.prior_stages ([])",
       "Bump schema_version to 1.2.0"]⟩ ]

/-- `manifest_data.get("schema_version", "1.0.0")` — the raw value, which
need not be a string. -/
def getSchemaVersion (r : JObj) : JVal :=
  (r.get "schema_version").getD (.jstr "1.0.0")

/-- `get_migration` (migrations.py line 267): direct lookup. -/
def findDirect (cur : JVal) (target : String) : Option Migration :=
  registryList.find? (fun m => decide (JVal.jstr m.fromVersion = cur) && decide (m.toVersion = target))

/-- One pass of the BFS inner `for` loop (migrations.py lines 300–310):
scan registered migrations from `cur`, returning the found path early
(`Sum.inl`) or the updated visited set and queue additions. -/
def bfsStep (cur : String) (path : List Migration) (target : String) :
    List Migration → List String → List (String × List Migration) →
    Sum (List Migration) (List String × List (String × List Migration))
  | [], visited, newq => .inr (visited, newq)
  | m :: rest, visited, newq =>
      if m.fromVersion = cur && !(visited.contains m.toVersion) then
        if m.toVersion = target then .inl (path ++ [m])
        else bfsStep cur path target rest (visited ++ [m.toVersion])
          (newq ++ [(m.toVersion, path ++ [m])])
      else bfsStep cur path target rest visited newq

/-- The BFS `while queue` loop (migrations.py lines 296–310); `fuel`
bounds the iterations (the visited set keeps it finite in the source). -/
def bfsGo (target : String) : Nat → List (String × List Migration) → List String →
    Option (List Migration)
  | 0, _, _ => none
  | _ + 1, [], _ => none
  | fuel + 1, (cur, path) :: queue, visited =>
      match bfsStep cur path target registryList visited [] with
      | .inl found => some found
      | .inr (visited', newq) => bfsGo target fuel (queue ++ newq) visited'

/-- `find_migration_path` (migrations.py line 276): direct migration
first, then BFS (which only moves along string-keyed versions, so a
non-string `schema_version` finds nothing). -/
def findPath (cur : JVal) (target : String) : Option (List Migration) :=
  match findDirect cur target with
  | some m => some [m]
  | none =>
      match cur with
      | .jstr c => bfsGo target 8 [(c, [])] [c]
      | _ => none

/-- The per-migration validate/transform/validate sequence
(migrations.py lines 404–418): `none` on a validation failure. -/
def applyMigs : List Migration → JObj → Option JObj
  | [], r => some r
  | m :: rest, r =>
      if getSchemaVersion r = .jstr m.fromVersion then
        let r' := m.transform r
        if getSchemaVersion r' = .jstr m.toVersion then applyMigs rest r'
        else none
      else none

/-- The `migration_history` record (migrations.py lines 430–437). -/
def historyRecord (cur : JVal) (target appliedAt checksumBefore checksumAfter : String)
    (path : List Migration) : JVal :=
  .jobj (.cons "from_version" cur
    (.cons "to_version" (.jstr target)
      (.cons "applied_at" (.jstr appliedAt)
        (.cons "changes" (.jarr (path.foldl (fun a m =>
            a.push (.jarr (m.changes.foldl (fun b c => b.push (.jstr c)) .nil))) .nil))
          (.cons "checksum_before" (.jstr checksumBefore)
            (.cons "checksum_after" (.jstr checksumAfter) .nil))))))

/-- `manifest_data["migration_history"]` append (lines 427–437):
created as `[]` when missing; appending to a non-list raises (caught as
failure). -/
def appendHistory (r : JObj) (rec : JVal) : Option JObj :=
  match r.get "migration_history" with
  | none => some (r.set "migration_history" (.jarr (JArr.nil.push rec)))
  | some (.jarr xs) => some (r.set "migration_history" (.jarr (xs.push rec)))
  | some _ => none

/-- What `migrate_manifest` leaves on disk. -/
inductive MigResult where
  | noop : MigResult
  | failure : MigResult
  | migrated (newRecord : JObj) (backup : JObj) : MigResult
  deriving DecidableEq

/-- `MigrationEngine.migrate_manifest` (migrations.py lines 345–455) for
a loaded record; callers default `target` to `get_latest_version() =
"1.2.0"`.  Checksums hash `json.dumps(data, sort_keys=True)` (default
separators). -/
def migrate_manifest (r : JObj) (target appliedAt : String) : MigResult :=
  let current := getSchemaVersion r
  if current = .jstr target then .noop
  else
    match findPath current target with
    | none => .failure
    | some path =>
        let checksumBefore := sha256_text (dumps cfgPlainSorted (.jobj r))
        match applyMigs path r with
        | none => .failure
        | some r' =>
            let checksumAfter := sha256_text (dumps cfgPlainSorted (.jobj r'))
            match appendHistory r'
                (historyRecord current target appliedAt checksumBefore checksumAfter path) with
            | none => .failure
            | some r'' => .migrated r'' r

/-- Projection used to state counterexamples compactly. -/
def migratedRecord : MigResult → Option JObj
  | .migrated r _ => some r
  | _ => none

end SigilZero

namespace SigilZero

open JVal JArr JObj

/-- `set` leaves other keys' values alone. -/
theorem JObj.get_set_ne (k k' : String) (v : JVal) (h : k ≠ k') :
    ∀ r : JObj, (r.set k v).get k' = r.get k'
  | .nil => by simp [JObj.set, JObj.get, h]
  | .cons a b tl => by
      by_cases hak : a = k
      · subst hak
        simp [JObj.set, JObj.get, h]
      · simp [JObj.set, hak, JObj.get, JObj.get_set_ne k k' v h tl]
  termination_by structural r => r

/-- `set` stores the value at the key. -/
theorem JObj.get_set_self (k : String) (v : JVal) :
    ∀ r : JObj, (r.set k v).get k = some v
  | .nil => by simp [JObj.set, JObj.get]
  | .cons a b tl => by
      by_cases hak : a = k
      · subst hak; simp [JObj.set, JObj.get]
      · simp [JObj.set, hak, JObj.get, JObj.get_set_self k v tl]
  termination_by structural r => r

/-- `set` never removes a key. -/
theorem JObj.hasKey_set (k k' : String) (v : JVal) (r : JObj)
    (h : r.hasKey k' = true) : (r.set k v).hasKey k' = true := by
  by_cases hk : k = k'
  · subst hk; simp [JObj.hasKey, JObj.get_set_self]
  · simpa [JObj.hasKey, JObj.get_set_ne k k' v hk] using h

/-- The fields written by some registered migration (plus the history). -/
def managedKeys : List String :=
  ["schema_version", "input_snapshots", "inputs_hash", "chain_metadata", "migration_history"]

/-- Every registered transform preserves every key outside
`managedKeys` — in particular `run_id`, `job_id` and all hashes. -/
theorem transform_preserves (m : Migration) (hm : m ∈ registryList) (r : JObj)
    (k : String) (hk : k ∉ managedKeys) (v : JVal) (hget : r.get k = some v) :
    (m.transform r).get k = some v := by
  simp only [managedKeys, List.mem_cons, List.not_mem_nil, or_false, not_or] at hk
  obtain ⟨h1, h2, h3, h4, _⟩ := hk
  simp only [registryList, List.mem_cons, List.not_mem_nil, or_false] at hm
  rcases hm with hm | hm | hm <;> subst hm <;>
    simp [transform_1_0_to_1_1, transform_1_1_to_1_2, transform_1_0_to_1_2,
      JObj.get_set_ne _ _ _ (fun he => h1 he.symm),
      JObj.get_set_ne _ _ _ (fun he => h2 he.symm),
      JObj.get_set_ne _ _ _ (fun he => h3 he.symm),
      JObj.get_set_ne _ _ _ (fun he => h4 he.symm), hget]

/-- Every registered transform keeps every existing key present. -/
theorem transform_keeps_keys (m : Migration) (hm : m ∈ registryList) (r : JObj)
    (k : String) (h : r.hasKey k = true) : (m.transform r).hasKey k = true := by
  simp only [registryList, List.mem_cons, List.not_mem_nil, or_false] at hm
  rcases hm with hm | hm | hm <;> subst hm <;>
    simp only [transform_1_0_to_1_1, transform_1_1_to_1_2, transform_1_0_to_1_2] <;>
    repeat first
      | assumption
      | apply JObj.hasKey_set

/-- Every registered transform sets the target schema version. -/
theorem transform_sets_version (m : Migration) (hm : m ∈ registryList) (r : JObj) :
    (m.transform r).get "schema_version" = some (.jstr m.toVersion) := by
  simp only [registryList, List.mem_cons, List.not_mem_nil, or_false] at hm
  rcases hm with hm | hm | hm <;> subst hm <;>
    simp [transform_1_0_to_1_1, transform_1_1_to_1_2, transform_1_0_to_1_2,
      JObj.get_set_self]

/-- The BFS inner scan only extends paths with scanned migrations. -/
theorem bfsStep_mem (cur : String) (path : List Migration) (target : String) :
    ∀ ms visited newq,
      (∀ m ∈ ms, m ∈ registryList) →
      (∀ m ∈ path, m ∈ registryList) →
      (∀ p ∈ newq, ∀ m ∈ p.2, m ∈ registryList) →
      (∀ found, bfsStep cur path target ms visited newq = .inl found →
         ∀ m ∈ found, m ∈ registryList) ∧
      (∀ visited' newq', bfsStep cur path target ms visited newq = .inr (visited', newq') →
         ∀ p ∈ newq', ∀ m ∈ p.2, m ∈ registryList) := by
  intro ms
  induction ms with
  | nil =>
      intro visited newq _ _ hq
      constructor
      · intro found h; cases h
      · intro v' q' h m hm
        simp only [bfsStep] at h
        cases h
        exact hq m hm
  | cons m rest ih =>
      intro visited newq hms hpath hq
      have hmreg : m ∈ registryList := hms m (List.mem_cons_self _ _)
      have hrest : ∀ x ∈ rest, x ∈ registryList := fun x hx => hms x (List.mem_cons_of_mem _ hx)
      have hextend : ∀ x ∈ path ++ [m], x ∈ registryList := by
        intro x hx
        rcases List.mem_append.mp hx with h | h
        · exact hpath x h
        · rw [List.mem_singleton.mp h]; exact hmreg
      simp only [bfsStep]
      by_cases hcond : (m.fromVersion = cur && !visited.contains m.toVersion) = true
      · rw [if_pos hcond]
        by_cases htgt : m.toVersion = target
        · rw [if_pos htgt]
          constructor
          · intro found h
            cases h
            exact hextend
          · intro v' q' h; cases h
        · rw [if_neg htgt]
          refine ih _ _ hrest hpath ?_
          intro p hp
          rcases List.mem_append.mp hp with h | h
          · exact hq p h
          · rw [List.mem_singleton.mp h]; exact hextend
      · rw [if_neg hcond]
        exact ih _ _ hrest hpath hq

/-- Every path the BFS returns consists of registered migrations. -/
theorem bfsGo_mem (target : String) :
    ∀ fuel queue visited,
      (∀ p ∈ queue, ∀ m ∈ p.2, m ∈ registryList) →
      ∀ found, bfsGo target fuel queue visited = some found →
        ∀ m ∈ found, m ∈ registryList := by
  intro fuel
  induction fuel with
  | zero => intro queue visited _ found h; cases h
  | succ fuel ih =>
      intro queue visited hq found h
      cases queue with
      | nil => cases h
      | cons cp queue' =>
          obtain ⟨cur, path⟩ := cp
          have hpath : ∀ m ∈ path, m ∈ registryList := hq (cur, path) (List.mem_cons_self _ _)
          have hstep := bfsStep_mem cur path target registryList visited []
            (fun m hm => hm) hpath (by intro p hp; cases hp)
          simp only [bfsGo] at h
          cases hbs : bfsStep cur path target registryList visited [] with
          | inl f =>
              rw [hbs] at h
              cases h
              exact hstep.1 found hbs
          | inr vq =>
              obtain ⟨v', q'⟩ := vq
              rw [hbs] at h
              refine ih _ _ ?_ found h
              intro p hp
              rcases List.mem_append.mp hp with hh | hh
              · exact hq p (List.mem_cons_of_mem _ hh)
              · exact hstep.2 v' q' hbs p hh

/-- Every path `find_migration_path` returns consists of registered
migrations. -/
theorem findPath_mem (cur : JVal) (target : String) (path : List Migration)
    (h : findPath cur target = some path) : ∀ m ∈ path, m ∈ registryList := by
  unfold findPath at h
  cases hd : findDirect cur target with
  | some m =>
      rw [hd] at h
      cases h
      intro x hx
      rw [List.mem_singleton.mp hx]
      exact List.mem_of_find?_eq_some hd
  | none =>
      rw [hd] at h
      cases cur with
      | jstr c =>
          exact bfsGo_mem target 8 [(c, [])] [c]
            (by intro p hp; rw [List.mem_singleton.mp hp]; intro m hm; cases hm) path h
      | jnull => cases h
      | jbool b => cases h
      | jnum l => cases h
      | jarr xs => cases h
      | jobj fs => cases h

/-- The validate/transform chain preserves non-managed keys. -/
theorem applyMigs_preserves :
    ∀ (path : List Migration), (∀ m ∈ path, m ∈ registryList) →
      ∀ r r', applyMigs path r = some r' →
        ∀ k, k ∉ managedKeys → ∀ v, r.get k = some v → r'.get k = some v := by
  intro path
  induction path with
  | nil =>
      intro _ r r' h k _ v hv
      cases h
      exact hv
  | cons m rest ih =>
      intro hmem r r' h k hk v hv
      simp only [applyMigs] at h
      by_cases h1 : getSchemaVersion r = .jstr m.fromVersion
      · rw [if_pos h1] at h
        by_cases h2 : getSchemaVersion (m.transform r) = .jstr m.toVersion
        · rw [if_pos h2] at h
          have hstep := transform_preserves m (hmem m (List.mem_cons_self _ _)) r k hk v hv
          exact ih (fun x hx => hmem x (List.mem_cons_of_mem _ hx)) _ _ h k hk v hstep
        · rw [if_neg h2] at h; cases h
      · rw [if_neg h1] at h; cases h

end SigilZero

namespace SigilZero

open JVal JArr JObj

/-- Claim C7, counterexample: `Migration_1_0_to_1_1` unconditionally
overwrites `inputs_hash` (and `input_snapshots`): on a 1.0.0 manifest
that already carries `inputs_hash = "sha256:aa"`, the engine rewrites it
to `null`. -/
theorem claim_C7_counterexample :
    Option.map (fun r => r.get "inputs_hash")
      (migratedRecord (migrate_manifest
        (JObj.cons "schema_version" (.jstr "1.0.0")
          (.cons "inputs_hash" (.jstr "sha256:aa")
            (.cons "run_id" (.jstr "r1") .nil))) "1.1.0" "t0")) =
      some (some .jnull) ∧
    (transform_1_0_to_1_1
      (JObj.cons "schema_version" (.jstr "1.0.0")
        (.cons "inputs_hash" (.jstr "sha256:aa") .nil))).get "inputs_hash" =
      some .jnull := by
  refine ⟨by decide, by decide⟩

/-- Claim C7 (amended): re-running a migration on a manifest already at
the target version is a no-op (nothing written); every registered
migration never removes a key, never rewrites any key outside
`schema_version`, `input_snapshots`, `inputs_hash`, `chain_metadata`
(so `run_id`, `job_id` and all existing hashes survive — on 1.0.0-shape
manifests that lack those fields the transforms are purely additive),
and bumps `schema_version` to its target; when a transform or
post-validation fails the engine returns failure without writing, so
the original manifest and any backup are untouched; a successful
migration's backup is the original record and its output still carries
every non-managed field unchanged. -/
theorem claim_C7_migrations (r : JObj) (target appliedAt k : String) (v : JVal) :
    (getSchemaVersion r = .jstr target → migrate_manifest r target appliedAt = .noop) ∧
    (∀ m ∈ registryList, k ∉ managedKeys → r.get k = some v →
       (m.transform r).get k = some v) ∧
    (∀ m ∈ registryList, ∀ k', r.hasKey k' = true → (m.transform r).hasKey k' = true) ∧
    (∀ m ∈ registryList, (m.transform r).get "schema_version" = some (.jstr m.toVersion)) ∧
    (∀ r' bak, migrate_manifest r target appliedAt = .migrated r' bak →
       bak = r ∧ (k ∉ managedKeys → r.get k = some v → r'.get k = some v)) := by
  refine ⟨?_, ?_, ?_, ?_, ?_⟩
  · intro h
    unfold migrate_manifest
    rw [if_pos h]
  · intro m hm hk hv
    exact transform_preserves m hm r k hk v hv
  · intro m hm k' h
    exact transform_keeps_keys m hm r k' h
  · intro m hm
    exact transform_sets_version m hm r
  · intro r' bak h
    unfold migrate_manifest at h
    by_cases h1 : getSchemaVersion r = .jstr target
    · rw [if_pos h1] at h; cases h
    · rw [if_neg h1] at h
      cases hp : findPath (getSchemaVersion r) target with
      | none => rw [hp] at h; cases h
      | some path =>
          simp only [hp] at h
          cases ha : applyMigs path r with
          | none => simp only [ha] at h; cases h
          | some rr =>
              simp only [ha] at h
              cases hh : appendHistory rr
                  (historyRecord (getSchemaVersion r) target appliedAt
                    (sha256_text (dumps cfgPlainSorted (.jobj r)))
                    (sha256_text (dumps cfgPlainSorted (.jobj rr))) path) with
              | none => simp only [hh] at h; cases h
              | some r2 =>
                  simp only [hh, MigResult.migrated.injEq] at h
                  obtain ⟨h2, h3⟩ := h
                  subst h2
                  subst h3
                  refine ⟨rfl, ?_⟩
                  intro hk hv
                  have hrr : rr.get k = some v :=
                    applyMigs_preserves path (findPath_mem _ _ _ hp) r rr ha k hk v hv
                  have hkh : k ≠ "migration_history" := by
                    simp only [managedKeys, List.mem_cons, List.not_mem_nil, or_false,
                      not_or] at hk
                    exact hk.2.2.2.2
                  unfold appendHistory at hh
                  cases hmh : rr.get "migration_history" with
                  | none =>
                      rw [hmh] at hh
                      cases hh
                      rw [JObj.get_set_ne _ _ _ (fun he => hkh he.symm)]
                      exact hrr
                  | some mv =>
                      rw [hmh] at hh
                      cases mv with
                      | jarr xs =>
                          cases hh
                          rw [JObj.get_set_ne _ _ _ (fun he => hkh he.symm)]
                          exact hrr
                      | jnull => cases hh
                      | jbool b => cases hh
                      | jnum l => cases hh
                      | jstr s => cases hh
                      | jobj fs => cases hh

/-- Witness for C7: already-current manifest is a no-op, and a concrete
non-managed field survives a real 1.0.0 → 1.2.0 migration. -/
theorem claim_C7_migrations_witness :
    migrate_manifest (JObj.cons "schema_version" (.jstr "1.2.0") .nil) "1.2.0" "t0" =
      .noop ∧
    (transform_1_0_to_1_2 (JObj.cons "schema_version" (.jstr "1.0.0")
        (.cons "run_id" (.jstr "r1") .nil))).get "run_id" = some (.jstr "r1") :=
  ⟨(claim_C7_migrations (JObj.cons "schema_version" (.jstr "1.2.0") .nil)
      "1.2.0" "t0" "x" .jnull).1 (by decide),
   (claim_C7_migrations (JObj.cons "schema_version" (.jstr "1.0.0")
        (.cons "run_id" (.jstr "r1") .nil)) "1.2.0" "t0" "run_id" (.jstr "r1")).2.1
      ⟨"1.0.0", "1.2.0", transform_1_0_to_1_2,
        ["Add input_snapshots field (empty dict)", "Add inputs_hash field (null)",
         "Add chain_metadata.is_chainable_stage (false)",
         "Add chain_metadata.prior_stages ([])",
         "Bump schema_version to 1.2.0"]⟩
      (by simp [registryList]) (by decide) (by decide)⟩

end SigilZero

namespace SigilZero

open JVal JArr JObj

/-! ## Instagram-copy pipeline: snapshots, manifest, projection
(`phase0_instagram_copy.py` lines 110–648; stored manifest per
`RunManifest`, schemas.py line 231)

The deterministic inputs of a run are the resolved snapshot payloads
(everything below `inputs/`), the doctrine resolution, and the model
output; `generate_text` is opaque but fixed, and its arguments are
deterministic, so the raw text it returns is itself a deterministic
input.  The volatile inputs are the wall clock, the queue job id and
the tracing id. -/

/-- Deterministic inputs of a single-mode instagram-copy run. -/
structure IgDet where
  jobId : String
  jobRef : String
  jobType : String
  brand : String
  /-- `brief.model_dump(exclude={"brief_hash", "repo_commit"})`. -/
  briefResolved : JVal
  /-- `context_spec.model_dump(exclude={"context_spec_hash"})`. -/
  contextSpecDump : JVal
  /-- the concatenated context text. -/
  contextContent : String
  /-- the `model_config` dict (line 160). -/
  modelConfig : JVal
  doctrineId : String
  doctrineVersion : String
  /-- the doctrine template content. -/
  promptTemplate : String
  /-- `doctrine_ref.resolved_path`. -/
  resolvedPath : String
  /-- `gen_spec.model_dump(exclude={"generation_hash"})`. -/
  genSpecDump : JVal
  /-- the text `generate_text` returns. -/
  rawOutput : String
  /-- `brief.ig.caption_count`. -/
  captionCount : Int

/-- Volatile inputs: wall clock, queue id, trace id. -/
structure IgVol where
  startedAt : String
  finishedAt : String
  queueJobId : Option String
  traceId : Option String

/-- `context.resolved.json` payload (lines 150–154). -/
def igContextResolved (d : IgDet) : JVal :=
  .jobj (.cons "spec" d.contextSpecDump
    (.cons "content" (.jstr d.contextContent)
      (.cons "content_hash" (.jstr (sha256_text d.contextContent)) .nil)))

/-- `doctrine.resolved.json` payload (lines 184–189). -/
def igDoctrineResolved (d : IgDet) : JVal :=
  .jobj (.cons "doctrine_id" (.jstr d.doctrineId)
    (.cons "version" (.jstr d.doctrineVersion)
      (.cons "content" (.jstr d.promptTemplate)
        (.cons "sha256" (.jstr (sha256_text d.promptTemplate)) .nil))))

/-- `doctrine_ref.model_dump()` — `resolved_at` is excluded by the
schema (`Field(exclude=True)`), so the stored doctrine has no volatile
field. -/
def igDoctrineDump (d : IgDet) : JVal :=
  .jobj (.cons "doctrine_id" (.jstr d.doctrineId)
    (.cons "version" (.jstr d.doctrineVersion)
      (.cons "sha256" (.jstr (sha256_text d.promptTemplate))
        (.cons "resolved_path" (.jstr d.resolvedPath) .nil))))

/-- The snapshot files written under `inputs/` (name, bytes on disk). -/
def igSnapshotFiles (d : IgDet) : List (String × String) :=
  [ ("brief", writeJsonString d.briefResolved),
    ("context", writeJsonString (igContextResolved d)),
    ("model_config", writeJsonString d.modelConfig),
    ("doctrine", writeJsonString (igDoctrineResolved d)) ]

/-- Lines 129–192: every snapshot hash is the SHA-256 of the snapshot
file's bytes on disk (each file is read back before hashing). -/
def igSnapshotHashes (d : IgDet) : List (String × String) :=
  (igSnapshotFiles d).map (fun p => (p.1, sha256_text p.2))

/-- Line 201. -/
def igInputsHash (d : IgDet) : String := compute_inputs_hash (igSnapshotHashes d)

/-- Line 204. -/
def igRunIdBase (d : IgDet) : String := derive_run_id (igInputsHash d) ""

/-- The captions of the primary variant (lines 498–504). -/
def igCaptions (d : IgDet) : List String :=
  enforceCount (parse_captions d.rawOutput) d.captionCount

/-- Caption sections of the markdown output (lines 546–549). -/
def mdCaptionLines : Nat → List String → List String
  | _, [] => []
  | i, c :: rest => ("## Caption " ++ toString i) :: pyStrip c :: "" :: mdCaptionLines (i + 1) rest

/-- `outputs/instagram_captions.md` (lines 539–551). -/
def igOutMd (d : IgDet) (runId : String) : String :=
  pyStrip (joinNl
    (["# Instagram Captions (" ++ d.brand ++ ")",
      "- job_id: " ++ d.jobId,
      "- run_id: " ++ runId,
      ""] ++ mdCaptionLines 1 (igCaptions d))) ++ "\n"

/-- `input_snapshots` metadata (lines 367–388): path, file hash, file
byte count. -/
def igInputSnapshotsMeta (d : IgDet) : JVal :=
  .jobj ((igSnapshotFiles d).foldr
    (fun p acc =>
      .cons p.1 (.jobj (.cons "path" (.jstr ("inputs/" ++ p.1 ++
            (if p.1 = "model_config" then ".json" else ".resolved.json")))
        (.cons "sha256" (.jstr (sha256_text p.2))
          (.cons "bytes" (.jnum (toString (utf8 p.2).length)) .nil)))) acc)
    .nil)

/-- The stored manifest of a successful single-mode run (`RunManifest`
construction at lines 402–419 plus the body's mutations at 437–438,
521–532, 555–557, 613–614; serialized with sorted keys, so field order
here is immaterial). -/
def igManifest (d : IgDet) (runId : String) (v : IgVol) : JObj :=
  .cons "schema_version" (.jstr "1.1.0")
  (.cons "job_id" (.jstr d.jobId)
  (.cons "run_id" (.jstr runId)
  (.cons "queue_job_id" (match v.queueJobId with | some q => .jstr q | none => .jnull)
  (.cons "job_ref" (.jstr d.jobRef)
  (.cons "job_type" (.jstr d.jobType)
  (.cons "started_at" (.jstr v.startedAt)
  (.cons "finished_at" (.jstr v.finishedAt)
  (.cons "status" (.jstr "succeeded")
  (.cons "inputs_hash" (.jstr (igInputsHash d))
  (.cons "input_snapshots" (igInputSnapshotsMeta d)
  (.cons "doctrine" (igDoctrineDump d)
  (.cons "brief_hash" (.jstr (sha256_json d.briefResolved))
  (.cons "context_spec_hash" (.jstr (sha256_json d.contextSpecDump))
  (.cons "context_content_hash" (.jstr (sha256_text d.contextContent))
  (.cons "generation_hash" (.jstr (sha256_json d.genSpecDump))
  (.cons "langfuse_trace_id" (match v.traceId with | some t => .jstr t | none => .jnull)
  (.cons "generation_metadata"
    (.jobj (.cons "generation_mode" (.jstr "single") (.cons "variant_count" (.jnum "1") .nil)))
  (.cons "artifacts"
    (.jobj (.cons "outputs/instagram_captions.md"
      (.jobj (.cons "sha256" (.jstr (sha256_text (igOutMd d runId)))
        (.cons "bytes" (.jnum (toString (utf8 (igOutMd d runId)).length)) .nil))) .nil))
  (.cons "meta" (.jobj .nil)
  (.cons "error" .jnull .nil))))))))))))))))))))

/-- One full run against a directory state: resolve, then either replay
(no manifest written) or build and persist the manifest. -/
def igRun (d : IgDet) (v : IgVol) (fs : RunFs) : Option (String × JObj) :=
  match resolveRunId fs (igInputsHash d) (igRunIdBase d) with
  | .replay _ _ => none
  | .collisionLimit => none
  | .reserve rid => some (rid, igManifest d rid v)

/-- `normalized_manifest_bytes` (smoke_determinism.py lines 109–119):
drop the four volatile top-level fields and `doctrine.resolved_at`,
re-serialize sorted with indent 2 and a trailing newline. -/
def normalized_manifest_bytes (m : JObj) : String :=
  let m1 := (((m.remove "started_at").remove "finished_at").remove
      "queue_job_id").remove "langfuse_trace_id"
  let doctrine : JObj :=
    match m1.get "doctrine" with
    | some (.jobj fs) => fs.remove "resolved_at"
    | _ => .nil
  let m2 := m1.set "doctrine" (.jobj doctrine)
  dumps cfgIndent2Sorted (.jobj m2) ++ "\n"

end SigilZero

namespace SigilZero

open JVal JArr JObj

/-- Claim C3 (amended): for a fixed run id, stripping the volatile
fields (`started_at`, `finished_at`, `queue_job_id`,
`langfuse_trace_id`, `doctrine.resolved_at`) from the stored manifest
and re-serializing is independent of every volatile input;
`queue_job_id` is recorded in the stored form; and the resolved run id
never depends on the volatile inputs. -/
theorem claim_C3_projection (d : IgDet) (v1 v2 : IgVol) (rid : String) :
    normalized_manifest_bytes (igManifest d rid v1) =
      normalized_manifest_bytes (igManifest d rid v2) ∧
    (igManifest d rid v1).get "queue_job_id" =
      some (match v1.queueJobId with | some q => .jstr q | none => .jnull) ∧
    (∀ fs : RunFs, (igRun d v1 fs).map Prod.fst = (igRun d v2 fs).map Prod.fst) := by
  refine ⟨?_, ?_, ?_⟩
  · simp [normalized_manifest_bytes, igManifest, JObj.remove, JObj.get, JObj.set]
  · simp [igManifest, JObj.get]
  · intro fs
    cases hres : resolveRunId fs (igInputsHash d) (igRunIdBase d) <;>
      simp [igRun, hres]

/-- A concrete deterministic input set for the counterexample. -/
def igDetEx : IgDet :=
  { jobId := "job-a", jobRef := "jobs/job-a/brief.yaml", jobType := "instagram_copy",
    brand := "B",
    briefResolved := .jobj (.cons "job_id" (.jstr "job-a") .nil),
    contextSpecDump := .jobj .nil, contextContent := "ctx",
    modelConfig := .jobj (.cons "model" (.jstr "gpt-4") .nil),
    doctrineId := "prompts/instagram_copy", doctrineVersion := "v1.0.0",
    promptTemplate := "T",
    resolvedPath := "prompts/instagram_copy/v1.0.0/template.md",
    genSpecDump := .jobj .nil, rawOutput := "hello", captionCount := 1 }

/-- Concrete volatile inputs for the counterexample. -/
def igVolEx : IgVol := ⟨"t1", "t2", none, none⟩

/-- A directory state whose base run directory holds a different
`inputs_hash`. -/
def igFs2Ex : RunFs := ⟨[(igRunIdBase igDetEx, some "sha256:0")], []⟩

/-- Claim C3, counterexample: two runs with identical inputs (hence the
same `inputs_hash`) executed against different directory states resolve
to different run ids (`base` vs `base-2`), and because `run_id` is part
of the deterministic projection, their stripped manifests are not
byte-identical. -/
theorem claim_C3_counterexample :
    (igRun igDetEx igVolEx ⟨[], []⟩).map Prod.fst = some (igRunIdBase igDetEx) ∧
    (igRun igDetEx igVolEx igFs2Ex).map Prod.fst =
      some (igRunIdBase igDetEx ++ "-2") ∧
    (igRun igDetEx igVolEx ⟨[], []⟩).map (fun p => p.2.get "inputs_hash") =
      (igRun igDetEx igVolEx igFs2Ex).map (fun p => p.2.get "inputs_hash") ∧
    (igRun igDetEx igVolEx ⟨[], []⟩).map (fun p => normalized_manifest_bytes p.2) ≠
      (igRun igDetEx igVolEx igFs2Ex).map (fun p => normalized_manifest_bytes p.2) := by
  refine ⟨by decide, by decide, by decide, by decide⟩

/-- Witness for C3 at the concrete inputs: varying the queue job id and
timestamps leaves the projection bytes identical. -/
theorem claim_C3_projection_witness :
    normalized_manifest_bytes (igManifest igDetEx "rid0" ⟨"t1", "t2", some "queue-A", none⟩) =
      normalized_manifest_bytes (igManifest igDetEx "rid0" ⟨"t3", "t4", some "queue-B", some "tr"⟩) :=
  (claim_C3_projection igDetEx ⟨"t1", "t2", some "queue-A", none⟩
    ⟨"t3", "t4", some "queue-B", some "tr"⟩ "rid0").1

end SigilZero

namespace SigilZero

open JVal JArr JObj

/-! ## Atomic finalization and the failure path
(`phase0_instagram_copy.py` lines 421–648)

The body either succeeds or raises; the `except` captures the error into
the manifest (`status="failed"`, `error=f"{type}: {msg}"`), the `finally`
always writes `manifest.json` into the temp directory, the temp
directory is renamed wholesale onto the final location (so the final
directory is exactly the temp contents — no partial population), and a
captured body exception is re-raised after promotion.  `rename` onto an
occupied destination fails: then the temp dir is removed and a
finalize error raised, leaving no final directory. -/

/-- Outcome of the tail of the pipeline. -/
inductive RunOutcome where
  | finalized (finalFiles : List (String × String)) (raised : Option String) : RunOutcome
  | finalizeFailed : RunOutcome
  deriving DecidableEq

/-- The manifest after the `except` clause (lines 616–619): on failure
`status="failed"` and the message lands in `error`; on success the
body already set `status="succeeded"` and `error` stays `null`. -/
def finalManifest (manifest : JObj) (bodyErr : Option String) : JObj :=
  match bodyErr with
  | some e => (manifest.set "status" (.jstr "failed")).set "error" (.jstr e)
  | none => (manifest.set "status" (.jstr "succeeded")).set "error" .jnull

/-- Lines 616–648: capture, write manifest into the temp dir, rename the
whole temp dir onto the final location, re-raise. -/
def finalizeRun (manifest : JObj) (bodyErr : Option String)
    (tempOutputs : List (String × String)) (finalDirExists : Bool) : RunOutcome :=
  let m := finalManifest manifest bodyErr
  let tempFiles := tempOutputs ++ [("manifest.json", writeJsonString (.jobj m))]
  if finalDirExists then .finalizeFailed
  else .finalized tempFiles bodyErr

/-- Claim C5: when the job body raises and the destination is free, the
exception is captured into `manifest.error` with `status="failed"`, the
manifest is in the promoted directory, the promoted directory is exactly
the temp directory's contents (all-or-nothing), and the exception is
re-raised; when the rename cannot happen no final directory is
produced at all. -/
theorem claim_C5_failure_path (manifest : JObj) (tempOutputs : List (String × String))
    (e : String) (bodyErr : Option String) (h : bodyErr = some e) :
    finalizeRun manifest bodyErr tempOutputs false =
      .finalized
        (tempOutputs ++
          [("manifest.json", writeJsonString (.jobj (finalManifest manifest bodyErr)))])
        (some e) ∧
    (finalManifest manifest bodyErr).get "status" = some (.jstr "failed") ∧
    (finalManifest manifest bodyErr).get "error" = some (.jstr e) ∧
    fsFile (tempOutputs ++
        [("manifest.json", writeJsonString (.jobj (finalManifest manifest bodyErr)))])
      "manifest.json" ≠ none ∧
    finalizeRun manifest bodyErr tempOutputs true = .finalizeFailed := by
  subst h
  refine ⟨rfl, ?_, ?_, ?_, rfl⟩
  · simp [finalManifest, JObj.get_set_ne _ _ _ (by decide : "error" ≠ "status"),
      JObj.get_set_self]
  · simp [finalManifest, JObj.get_set_self]
  · intro hnone
    induction tempOutputs with
    | nil => simp [fsFile] at hnone
    | cons p rest ih =>
        by_cases hp : p.1 = "manifest.json"
        · simp [fsFile, hp] at hnone
        · simp only [List.cons_append, fsFile, hp, if_false] at hnone
          exact ih hnone

/-- Witness for C5: a forced body failure over an empty temp dir. -/
theorem claim_C5_failure_path_witness :
    finalizeRun (JObj.cons "job_id" (.jstr "j") .nil) (some "RuntimeError: boom") [] false =
      .finalized
        [("manifest.json", writeJsonString (.jobj (finalManifest
            (JObj.cons "job_id" (.jstr "j") .nil) (some "RuntimeError: boom"))))]
        (some "RuntimeError: boom") :=
  (claim_C5_failure_path (JObj.cons "job_id" (.jstr "j") .nil) [] "RuntimeError: boom"
    (some "RuntimeError: boom") rfl).1

end SigilZero

namespace SigilZero

open JVal JArr JObj

/-! ## Brand-optimization (chainable) pipeline
(`phase0_brand_optimization.py` lines 99–423)

The inputs that feed its snapshot hashing: the raw bytes of the job's
`brief.yaml`, the parsed brief dump, the chain-input block, the prior
run's directory (manifest fields, optional context snapshot bytes, and
output files). -/

/-- Inputs of `run_brand_optimization` relevant to snapshot hashing. -/
structure ChainCtx where
  /-- raw bytes of `brief.yaml` on disk. -/
  briefYamlBytes : String
  /-- `brief.model_dump()`. -/
  briefResolved : JVal
  priorRunId : String
  priorStage : String
  priorJobId : String
  requiredOutputs : List String
  priorManifestJobId : JVal
  priorManifestRunId : JVal
  priorManifestJobType : JVal
  priorManifestInputsHash : JVal
  /-- bytes of the prior run's `inputs/context.resolved.json`, when present. -/
  priorContext : Option String
  /-- the prior run's `outputs/<relpath>` files. -/
  priorOutputs : List (String × String)

/-- The hard-coded `model_config` (line 200). -/
def bo_model_config : JVal :=
  .jobj (.cons "provider" (.jstr "openai") (.cons "model" (.jstr "gpt-4") .nil))

/-- The `doctrine_resolved` payload (lines 206–214). -/
def bo_doctrine_resolved : JVal :=
  .jobj (.cons "doctrine_id" (.jstr "brand_optimization")
    (.cons "version" (.jstr "v1.0.0")
      (.cons "sha256" (.jstr (sha256_text "{}"))
        (.cons "content" (.jstr "{}") .nil))))

/-- Lines 222–229: hash each required prior output's bytes on disk;
`none` when a required output is missing (the code raises). -/
def bo_prior_output_hashes : List String → List (String × String) →
    Option (List (String × String))
  | [], _ => some []
  | f :: rest, outs =>
      match fsFile outs f with
      | some bytes => (bo_prior_output_hashes rest outs).map (fun l => (f, sha256_text bytes) :: l)
      | none => none

/-- A list of strings as a JSON array. -/
def strsToJArr : List String → JArr
  | [] => .nil
  | s :: rest => .cons (.jstr s) (strsToJArr rest)

/-- The `prior_artifact` snapshot (lines 231–243). -/
def bo_prior_artifact_snapshot (ctx : ChainCtx) (poh : List (String × String)) : JVal :=
  .jobj (.cons "prior_run_id" (.jstr ctx.priorRunId)
    (.cons "prior_stage" (.jstr ctx.priorStage)
      (.cons "prior_job_id" (.jstr ctx.priorJobId)
        (.cons "prior_manifest"
          (.jobj (.cons "job_id" ctx.priorManifestJobId
            (.cons "run_id" ctx.priorManifestRunId
              (.cons "job_type" ctx.priorManifestJobType
                (.cons "inputs_hash" ctx.priorManifestInputsHash .nil)))))
          (.cons "required_outputs" (.jarr (strsToJArr ctx.requiredOutputs))
            (.cons "prior_output_hashes" (.jobj (hashesToJObj poh)) .nil))))))

/-- The snapshot hashes `run_brand_optimization` feeds into
`compute_inputs_hash` (lines 180–259): `brief` hashes the original
`brief.yaml` bytes, `context` the prior snapshot bytes or the in-memory
`b"{}"`, `model_config` and `prior_artifact` in-memory `json.dumps`
byte strings; only `doctrine` reads its snapshot file back. -/
def bo_snapshot_hashes (ctx : ChainCtx) : Option (List (String × String)) :=
  (bo_prior_output_hashes ctx.requiredOutputs ctx.priorOutputs).map fun poh =>
    [ ("brief", sha256_text ctx.briefYamlBytes),
      ("context", match ctx.priorContext with
        | some b => sha256_text b
        | none => sha256_text "{}"),
      ("model_config", sha256_text (dumps cfgPlainSorted bo_model_config)),
      ("doctrine", sha256_text (writeJsonString bo_doctrine_resolved)),
      ("prior_artifact", sha256_text (dumps cfgPlainSorted (bo_prior_artifact_snapshot ctx poh))) ]

/-- The snapshot files the pipeline leaves under `inputs/`
(lines 183–248): every snapshot is written with `write_json` except the
context, which is copied from the prior run when present. -/
def bo_snapshot_files (ctx : ChainCtx) : Option (List (String × String)) :=
  (bo_prior_output_hashes ctx.requiredOutputs ctx.priorOutputs).map fun poh =>
    [ ("brief", writeJsonString ctx.briefResolved),
      ("context", match ctx.priorContext with
        | some b => b
        | none => writeJsonString (.jobj .nil)),
      ("model_config", writeJsonString bo_model_config),
      ("doctrine", writeJsonString bo_doctrine_resolved),
      ("prior_artifact", writeJsonString (bo_prior_artifact_snapshot ctx poh)) ]

/-- Line 260. -/
def bo_inputs_hash (ctx : ChainCtx) : Option String :=
  (bo_snapshot_hashes ctx).map compute_inputs_hash

/-- The value C1 claims `inputs_hash` equals: the canonical hash of the
mapping from snapshot name to the SHA-256 of the snapshot file's bytes
on disk under `inputs/`.  Modelled from the spec ("the bytes hashed
during `inputs_hash` computation are the bytes on disk — never an
in-memory object"). -/
def bo_disk_inputs_hash (ctx : ChainCtx) : Option String :=
  (bo_snapshot_files ctx).map fun files =>
    compute_inputs_hash (files.map (fun p => (p.1, sha256_text p.2)))

/-- Line 263. -/
def bo_run_id_base (ctx : ChainCtx) : Option String :=
  (bo_inputs_hash ctx).map (fun h => derive_run_id h "")

/-- Lines 303–309: the manifest's `status` is `"idempotent_replay"`
when the final run directory already holds a manifest, else
`"succeeded"`; it is then persisted (lines 406–409). -/
def bo_status (finalDirHasManifest : Bool) : String :=
  if finalDirHasManifest then "idempotent_replay" else "succeeded"

end SigilZero

namespace SigilZero

open JVal JArr JObj

/-- Lookup into the `prior_output_hashes` JSON object mirrors the
association list. -/
theorem get_hashesToJObj : ∀ (l : List (String × String)) (k : String),
    (hashesToJObj l).get k = (fsFile l k).map .jstr := by
  intro l
  induction l with
  | nil => intro k; rfl
  | cons p rest ih =>
      intro k
      obtain ⟨a, b⟩ := p
      by_cases hk : a = k
      · simp [hashesToJObj, fsFile, JObj.get, hk]
      · simp [hashesToJObj, fsFile, JObj.get, hk, ih]

/-- Every required output is hashed from its bytes on disk in the prior
run directory. -/
theorem bo_poh_covers : ∀ (req : List String) (outs poh : List (String × String)),
    bo_prior_output_hashes req outs = some poh →
    ∀ f ∈ req, fsFile poh f = (fsFile outs f).map sha256_text := by
  intro req
  induction req with
  | nil => intro outs poh _ f hf; cases hf
  | cons f0 rest ih =>
      intro outs poh h f hf
      simp only [bo_prior_output_hashes] at h
      cases hb : fsFile outs f0 with
      | none => rw [hb] at h; cases h
      | some b0 =>
          rw [hb] at h
          cases hrest : bo_prior_output_hashes rest outs with
          | none => rw [hrest] at h; cases h
          | some poh' =>
              rw [hrest] at h
              simp only [Option.map_some] at h
              cases h
              rcases List.mem_cons.mp hf with hf0 | hfr
              · subst hf0
                simp [fsFile, hb]
              · by_cases hff : f0 = f
                · subst hff
                  simp [fsFile, hb]
                · simp only [fsFile, hff, if_false]
                  exact ih outs poh' hrest f hfr

/-- Hashing only succeeds when every required output exists on disk. -/
theorem bo_poh_requires (req : List String) : ∀ (outs poh : List (String × String)),
    bo_prior_output_hashes req outs = some poh →
    ∀ f ∈ req, fsFile outs f ≠ none := by
  induction req with
  | nil => intro outs poh _ f hf; cases hf
  | cons f0 rest ih =>
      intro outs poh h f hf
      simp only [bo_prior_output_hashes] at h
      cases hb0 : fsFile outs f0 with
      | none => rw [hb0] at h; cases h
      | some b0 =>
          rw [hb0] at h
          cases hrest : bo_prior_output_hashes rest outs with
          | none => rw [hrest] at h; cases h
          | some poh' =>
              rcases List.mem_cons.mp hf with hf0 | hfr
              · subst hf0; simp [hb0]
              · exact ih outs poh' hrest f hfr

/-- The concrete chain context for C1/C4: one required prior output. -/
def boCtxEx : ChainCtx :=
  { briefYamlBytes := "job_id: opt-001\n",
    briefResolved := .jobj (.cons "job_id" (.jstr "opt-001") .nil),
    priorRunId := "prior-run-1", priorStage := "brand_compliance_score",
    priorJobId := "job-a",
    requiredOutputs := ["compliance_scores.json"],
    priorManifestJobId := .jstr "job-a", priorManifestRunId := .jstr "prior-run-1",
    priorManifestJobType := .jstr "brand_compliance_score",
    priorManifestInputsHash := .jstr "sha256:abc",
    priorContext := none,
    priorOutputs := [("compliance_scores.json", "{}")] }

/-- `boCtxEx` with one byte of the required prior output changed. -/
def boCtxEx2 : ChainCtx :=
  { boCtxEx with priorOutputs := [("compliance_scores.json", "{ }")] }

/-- Claim C1: the code at the failing input.  In
`run_brand_optimization` the recorded `inputs_hash` hashes in-memory
byte strings for `brief`, `context`, `model_config` and
`prior_artifact`, which differ from the snapshot files written to
`inputs/`, so `inputs_hash` does not equal the canonical hash of the
on-disk snapshot hashes. -/
theorem claim_C1_divergence :
    bo_inputs_hash boCtxEx ≠ bo_disk_inputs_hash boCtxEx ∧
    dumps cfgPlainSorted bo_model_config ≠ writeJsonString bo_model_config ∧
    sha256_text "{}" ≠ sha256_text (writeJsonString (.jobj .nil)) := by
  refine ⟨by decide, by decide, by decide⟩

/-- Claim C4: for every chainable run that reaches hashing, the
`prior_artifact` snapshot is among the hashed snapshots, its
`prior_output_hashes` has an entry for every `required_outputs` relpath
equal to the SHA-256 of that output file's bytes in the prior run
directory; and concretely, changing one byte of a required prior output
changes the snapshot, the downstream `inputs_hash` and the downstream
run id. -/
theorem claim_C4_chain (ctx : ChainCtx) (poh : List (String × String))
    (h : bo_prior_output_hashes ctx.requiredOutputs ctx.priorOutputs = some poh) :
    (bo_snapshot_hashes ctx).map (fun shs => fsFile shs "prior_artifact") =
      some (some (sha256_text (dumps cfgPlainSorted (bo_prior_artifact_snapshot ctx poh)))) ∧
    (∀ f ∈ ctx.requiredOutputs, ∃ bytes, fsFile ctx.priorOutputs f = some bytes ∧
       (hashesToJObj poh).get f = some (.jstr (sha256_text bytes))) ∧
    (bo_prior_output_hashes boCtxEx.requiredOutputs boCtxEx.priorOutputs ≠
       bo_prior_output_hashes boCtxEx2.requiredOutputs boCtxEx2.priorOutputs) ∧
    bo_inputs_hash boCtxEx ≠ bo_inputs_hash boCtxEx2 ∧
    bo_run_id_base boCtxEx ≠ bo_run_id_base boCtxEx2 := by
  refine ⟨?_, ?_, by decide, by decide, by decide⟩
  · simp [bo_snapshot_hashes, h, fsFile]
  · intro f hf
    have hcov := bo_poh_covers ctx.requiredOutputs ctx.priorOutputs poh h f hf
    cases hb : fsFile ctx.priorOutputs f with
    | none =>
        exact absurd hb (bo_poh_requires ctx.requiredOutputs ctx.priorOutputs poh h f hf)
    | some bytes =>
        rw [hb] at hcov
        exact ⟨bytes, rfl, by rw [get_hashesToJObj, hcov]; rfl⟩

/-- Witness for C4 at the concrete chain context. -/
theorem claim_C4_chain_witness :
    ∃ bytes, fsFile boCtxEx.priorOutputs "compliance_scores.json" = some bytes ∧
      (hashesToJObj [("compliance_scores.json", sha256_text "{}")]).get
          "compliance_scores.json" = some (.jstr (sha256_text bytes)) :=
  (claim_C4_chain boCtxEx [("compliance_scores.json", sha256_text "{}")]
    (by decide)).2.1 "compliance_scores.json" (by decide)

/-- Claim C8: the code at the failing input.  `run_brand_optimization`
persists a manifest whose `status` is `"idempotent_replay"` whenever the
final run directory already holds a manifest — a value outside the
documented set `{running, succeeded, failed}`; the instagram finalizer,
by contrast, only persists `succeeded` or `failed`. -/
theorem claim_C8_divergence :
    bo_status true = "idempotent_replay" ∧
    bo_status true ∉ ["running", "succeeded", "failed"] ∧
    bo_status false ∈ ["running", "succeeded", "failed"] ∧
    (∀ (m : JObj) (bodyErr : Option String),
       (finalManifest m bodyErr).get "status" = some (.jstr "failed") ∨
       (finalManifest m bodyErr).get "status" = some (.jstr "succeeded")) := by
  refine ⟨by decide, by decide, by decide, ?_⟩
  intro m bodyErr
  cases bodyErr with
  | some e =>
      left
      simp [finalManifest, JObj.get_set_ne _ _ _ (by decide : "error" ≠ "status"),
        JObj.get_set_self]
  | none =>
      right
      simp [finalManifest, JObj.get_set_ne _ _ _ (by decide : "error" ≠ "status"),
        JObj.get_set_self]

end SigilZero

namespace SigilZero

open JVal JArr JObj

/-! ## Brand-optimization resolution and direct-write finalization
(`phase0_brand_optimization.py` lines 271–338 and 405–409)

Unlike the instagram resolver, this block scans only the canonical job
root for the base run id — no legacy locations, no integer suffixes, no
collision limit — and it writes the manifest in every branch.  Unlike
the instagram finalizer, there is no temp-to-final rename and no except
clause: the final directory is populated file by file. -/

/-- A directory of the canonical job root, as the code observes it:
whether `manifest.json` exists as a file (the status check, line 304)
and what `_read_manifest_inputs_hash` returns for it (the replay loop,
line 280). -/
def dirEntry : List (String × Bool × Option String) → String → Option (Bool × Option String)
  | [], _ => none
  | (k, e) :: tl, name => if k = name then some e else dirEntry tl name

/-- What the resolution block decides and what the manifest write does. -/
structure BoResolveOutcome where
  runId : String
  /-- the replay loop found the base directory with a matching hash. -/
  loopMatched : Bool
  /-- `status` per lines 304–309. -/
  status : String
  /-- lines 406–409 run unconditionally. -/
  manifestWritten : Bool
  /-- that write lands on a pre-existing `manifest.json`. -/
  overwritesExisting : Bool
  deriving DecidableEq

/-- Lines 271–309 plus the unconditional manifest write (406–409): the
loop checks only directories named `base_run_id` in the job root; on a
hash match it replays, otherwise the "new run" branch reuses
`runs_root / base_run_id` as the final directory — in both branches
`run_id` is the base and `manifest.json` is (re)written there. -/
def bo_resolveRun (dirs : List (String × Bool × Option String)) (h base : String) :
    BoResolveOutcome :=
  let entry := dirEntry dirs base
  let matched :=
    match entry with
    | some (_, some eh) => eh = h
    | _ => false
  let hasManifest :=
    match entry with
    | some (hm, _) => hm
    | none => false
  { runId := base,
    loopMatched := matched,
    status := if hasManifest then "idempotent_replay" else "succeeded",
    manifestWritten := true,
    overwritesExisting := hasManifest }

/-- The fixed snapshot list of the copy loop (lines 312–318). -/
def bo_snapshot_filenames : List String :=
  ["brief.resolved.json", "context.resolved.json", "model_config.json",
   "doctrine.resolved.json", "prior_artifact.resolved.json"]

/-- The copy loop (lines 319–326): copy each snapshot from the temp dir
into the final run directory, raising `RuntimeError` when one is
missing; `acc` holds what the final directory has already received. -/
def bo_copyLoop (tempFiles : List (String × String)) :
    List String → List (String × String) → List (String × String) × Option String
  | [], acc => (acc, none)
  | f :: rest, acc =>
      match fsFile tempFiles f with
      | some bytes => bo_copyLoop tempFiles rest (acc ++ [("inputs/" ++ f, bytes)])
      | none => (acc, some ("Expected snapshot not found: " ++ f))

/-- Lines 311–338 plus 405–409 for a fresh run: the final directory is
populated in place — snapshots, then the output, then the manifest
last.  There is no rename and no except clause, so an exception in the
loop leaves the directory exactly as populated so far, with the error
propagating uncaptured and no manifest written. -/
def bo_populateFinalDir (tempFiles : List (String × String))
    (outputBytes manifestBytes : String) : List (String × String) × Option String :=
  match bo_copyLoop tempFiles bo_snapshot_filenames [] with
  | (acc, some e) => (acc, some e)
  | (acc, none) =>
      (acc ++ [("outputs/optimization.json", outputBytes), ("manifest.json", manifestBytes)],
       none)

/-- The base run id of the C2 counterexample. -/
def boC2Base : String := derive_run_id ("sha256:" ++ hexA64) ""

/-- Resolution against a base directory whose manifest holds a
different `inputs_hash`. -/
def boC2Mismatch : BoResolveOutcome :=
  bo_resolveRun [(boC2Base, true, some "sha256:other")] ("sha256:" ++ hexA64) boC2Base

/-- Resolution against a base directory whose manifest hash matches. -/
def boC2Replay : BoResolveOutcome :=
  bo_resolveRun [(boC2Base, true, some ("sha256:" ++ hexA64))] ("sha256:" ++ hexA64) boC2Base

/-- Claim C2, counterexample: in `run_brand_optimization` — a cited
source of the claim — a base directory whose manifest `inputs_hash`
differs does not advance the run id to `base-2` (there is no suffix
scan and no collision limit): the base directory is reused, labelled an
idempotent replay, and its manifest is overwritten; the matching-hash
replay also rewrites the manifest rather than returning without
writing. -/
theorem claim_C2_counterexample :
    boC2Mismatch.loopMatched = false ∧
    boC2Mismatch.runId = boC2Base ∧
    boC2Mismatch.runId ≠ boC2Base ++ "-2" ∧
    boC2Mismatch.status = "idempotent_replay" ∧
    boC2Mismatch.manifestWritten = true ∧
    boC2Mismatch.overwritesExisting = true ∧
    boC2Replay.loopMatched = true ∧
    boC2Replay.manifestWritten = true := by
  refine ⟨by decide, by decide, by decide, by decide, by decide, by decide, by decide, by decide⟩

/-- A temp directory missing its fifth snapshot, at which the copy loop
raises (line 326). -/
def boC5Temp : List (String × String) :=
  [("brief.resolved.json", "B"), ("context.resolved.json", "C"),
   ("model_config.json", "M"), ("doctrine.resolved.json", "D")]

/-- Claim C5, counterexample: in `run_brand_optimization` — a cited
source of the claim — a body exception is not captured into any
manifest and there is no all-or-nothing rename: the raise in the
snapshot copy loop leaves the final run directory populated with
exactly the four files copied so far, no `manifest.json` at all (hence
no `manifest.error`, no `status="failed"`), and the exception
propagates. -/
theorem claim_C5_counterexample :
    (bo_populateFinalDir boC5Temp "O" "MF").2 =
      some "Expected snapshot not found: prior_artifact.resolved.json" ∧
    (bo_populateFinalDir boC5Temp "O" "MF").1 =
      [("inputs/brief.resolved.json", "B"), ("inputs/context.resolved.json", "C"),
       ("inputs/model_config.json", "M"), ("inputs/doctrine.resolved.json", "D")] ∧
    fsFile (bo_populateFinalDir boC5Temp "O" "MF").1 "manifest.json" = none := by
  refine ⟨by decide, by decide, by decide⟩

end SigilZero
